import Mathlib

/-!
# A shallow embedding of the TDOSE flux-apportionment core

This file embeds the parts of the TDOSE source that the verified claims are
about:

* `tdose_model_cube.gen_fullmodel` — the per-wavelength-layer weighted
  least-squares solve (`optimize_method='matrix'`, the production default),
  its non-finite-pixel masking, its `try: inv / except: zeros` recovery, and
  the loop over layers (modelled by `TDOSE.gen_fullmodel` below);
* `tdose_extract_spectra.extract_spectrum` — the aperture / deblended
  extraction dispatch, the flux sums, and the noise-propagation formulas
  (modelled by `TDOSE.extract_spectrum`);
* `tdose_modify_cube.remove_object` — object removal via the source model
  cube (modelled by `TDOSE.remove_object`).

Modelling conventions:

* IEEE floating-point values are embedded as `Option ℚ`: `some q` is a finite
  value, `none` is a non-finite value (NaN or ±Inf — exactly the values
  `np.ma.masked_invalid` masks and `np.isfinite` rejects).  Finite arithmetic
  is exact rational arithmetic; any operation that produces a non-finite
  float (division by zero, or any operation on a non-finite operand)
  produces `none`.
* `numpy.ma` masked-array semantics are embedded explicitly: masked entries
  are skipped by masked sums, `np.ma.dot` fills masked entries with 0, and
  masked division additionally masks zero divisors (the `_DomainSafeDivide`
  domain of `np.ma.divide`).
* `np.linalg.inv` succeeds exactly on matrices with nonzero determinant (the
  exact-arithmetic reading of LAPACK's zero-pivot test) and then returns the
  true inverse; the surrounding bare `except:` of the source turns a raise
  into the all-zero matrix.  Applied to a matrix with non-finite entries it
  does not raise and its output is non-finite.
* Square roots appear in the source only as the outermost operation of the
  extracted noise (and hence of S/N).  Both are therefore carried at the
  squared level (`noiseSq` = fluxerror², `snSq` = (S/N)²), which represents
  the same information exactly and keeps every definition executable over ℚ.
* The spatial templates built by `tdose_utilities` (`gen_image`,
  `numerical_convolution_image`; that module is not part of the sources
  under verification) enter the solver only as per-layer unit images.
  Modelled from the spec: "SourceModelBuilder ... Output is always a
  unit-scale template ready to be multiplied by a solved flux scale" — they
  are supplied to the model as an input function `tmpl`.
* Exceptions (`sys.exit`, `IndexError`, `TypeError`, `ValueError`) are
  modelled with `Except`.
-/

namespace TDOSE

/-- A floating-point value: `some q` = finite, `none` = non-finite (NaN/Inf). -/
abbrev FVal := Option ℚ

/-- Float addition: finite on finite operands, non-finite otherwise. -/
def fadd : FVal → FVal → FVal
  | some a, some b => some (a + b)
  | _, _ => none

/-- Float multiplication: finite on finite operands, non-finite otherwise. -/
def fmul : FVal → FVal → FVal
  | some a, some b => some (a * b)
  | _, _ => none

/-- Float division: non-finite if an operand is non-finite or the divisor is
zero (`x/0` is `±Inf` or `NaN` in numpy), finite exact quotient otherwise. -/
def fdiv : FVal → FVal → FVal
  | some a, some b => if b = 0 then none else some (a / b)
  | _, _ => none

/-- Float absolute value. -/
def fabs : FVal → FVal
  | some a => some |a|
  | none => none

/-- Float sum of a list (NaN/Inf propagates through the whole sum). -/
def fsum (l : List FVal) : FVal := l.foldr fadd (some 0)

@[simp] theorem fadd_none_left (b : FVal) : fadd none b = none := rfl

@[simp] theorem fadd_none_right (a : FVal) : fadd a none = none := by
  cases a <;> rfl

@[simp] theorem fadd_some (a b : ℚ) : fadd (some a) (some b) = some (a + b) := rfl

@[simp] theorem fmul_some (a b : ℚ) : fmul (some a) (some b) = some (a * b) := rfl

@[simp] theorem fmul_none_left (b : FVal) : fmul none b = none := rfl

@[simp] theorem fmul_none_right (a : FVal) : fmul a none = none := by
  cases a <;> rfl

@[simp] theorem fdiv_none_left (b : FVal) : fdiv none b = none := rfl

@[simp] theorem fdiv_none_right (a : FVal) : fdiv a none = none := by
  cases a <;> rfl

@[simp] theorem fdiv_some (a b : ℚ) :
    fdiv (some a) (some b) = if b = 0 then none else some (a / b) := rfl

theorem fmul_isSome {a b : FVal} (h : (fmul a b).isSome) : a.isSome ∧ b.isSome := by
  cases a <;> cases b <;> simp_all [fmul]

theorem fadd_isSome {a b : FVal} (h : (fadd a b).isSome) : a.isSome ∧ b.isSome := by
  cases a <;> cases b <;> simp_all [fadd]

@[simp] theorem fsum_nil : fsum [] = some 0 := rfl

@[simp] theorem fsum_cons (a : FVal) (l : List FVal) :
    fsum (a :: l) = fadd a (fsum l) := rfl

/-- If a float sum is finite, every summand was finite. -/
theorem isSome_of_mem_fsum {l : List FVal} (h : (fsum l).isSome) :
    ∀ x ∈ l, x.isSome := by
  induction l with
  | nil => intro x hx; cases hx
  | cons a t ih =>
    intro x hx
    rw [fsum_cons] at h
    rcases fadd_isSome h with ⟨ha, ht⟩
    rcases List.mem_cons.mp hx with rfl | hxt
    · exact ha
    · exact ih ht x hxt

/-- A float sum of finite values is finite. -/
theorem fsum_isSome_of_forall {l : List FVal} (h : ∀ x ∈ l, x.isSome) :
    (fsum l).isSome := by
  induction l with
  | nil => simp
  | cons a t ih =>
    rw [fsum_cons]
    rcases Option.isSome_iff_exists.mp (h a (List.mem_cons_self a t)) with ⟨qa, hqa⟩
    have ht := ih (fun x hx => h x (List.mem_cons.mpr (Or.inr hx)))
    rcases Option.isSome_iff_exists.mp ht with ⟨qt, hqt⟩
    rw [hqa, hqt]; rfl

/-- A float sum all of whose summands are the finite value 0 is finite 0. -/
theorem fsum_of_forall_zero {l : List FVal} (h : ∀ x ∈ l, x = some 0) :
    fsum l = some 0 := by
  induction l with
  | nil => rfl
  | cons a t ih =>
    rw [fsum_cons, h a (List.mem_cons_self a t),
      ih (fun x hx => h x (List.mem_cons.mpr (Or.inr hx)))]
    simp

/-- `fadd` is associative. -/
theorem fadd_assoc (a b c : FVal) : fadd (fadd a b) c = fadd a (fadd b c) := by
  cases a <;> cases b <;> cases c <;> simp [fadd, add_assoc]

/-- Folding `fadd` from the left equals adding to the float sum (used to
relate the per-source accumulation loop of the source to a list sum). -/
theorem foldl_fadd (l : List FVal) (a : FVal) :
    l.foldl fadd a = fadd a (fsum l) := by
  induction l generalizing a with
  | nil => cases a <;> simp [fsum, fadd]
  | cons x t ih => rw [List.foldl_cons, ih, fsum_cons, fadd_assoc]

end TDOSE

namespace TDOSE

/-! ## The layer solver of `tdose_model_cube.gen_fullmodel`
(`optimize_method='matrix'`, `fit_source_scales=True`; source lines 148-266).

A layer is a flattened image of `P` pixels.  `d` is the data layer, `ν` the
noise (sqrt-variance) layer, `tmpl s` the PSF-convolved unit template of
source `s` (normalised model image; `img_model` before source line 227). -/

/-- Source lines 150-151: a mask is generated iff the data or noise layer
contains a non-finite pixel. -/
def maskPresent {P : ℕ} (d ν : Fin P → FVal) : Bool :=
  decide (∃ p, d p = none ∨ ν p = none)

/-- Source lines 153-155: `comb_mask`, the union of the invalid masks of the
data and noise layers. -/
def combMask {P : ℕ} (d ν : Fin P → FVal) (p : Fin P) : Bool :=
  (d p).isNone || (ν p).isNone

/-- The effective mask of an entry of the design matrix (and of the data
vector) in the masked path: `comb_mask` plus the zero-divisor domain mask
that `np.ma` division adds at noise pixels equal to 0 (source lines 227 and
238, `img_model/noisecube_layer` and `datacube_layer/noisecube_layer` with
masked arrays). -/
def entMask {P : ℕ} (d ν : Fin P → FVal) (p : Fin P) : Bool :=
  combMask d ν p || decide (ν p = some 0)

/-- Source line 243 in the masked path: `ATA = Atrans.dot(A)`.
`np.ma.dot` fills masked entries with 0, so the sum runs over unmasked
pixels of `(tmpl s / ν) * (tmpl t / ν)`. -/
def ATAm {n P : ℕ} (d ν : Fin P → FVal) (tmpl : Fin n → Fin P → ℚ) :
    Matrix (Fin n) (Fin n) ℚ := fun s t =>
  ∑ p, if entMask d ν p then 0 else tmpl s p * tmpl t p / ((ν p).getD 1) ^ 2

/-- Source line 244 in the masked path: `ATd = Atrans.dot(dataravel)` with
masked entries filled with 0. -/
def ATdm {n P : ℕ} (d ν : Fin P → FVal) (tmpl : Fin n → Fin P → ℚ) :
    Fin n → ℚ := fun s =>
  ∑ p, if entMask d ν p then 0 else tmpl s p * (d p).getD 0 / ((ν p).getD 1) ^ 2

/-- Source lines 246-249: `try: ATAinv = np.linalg.inv(ATA) except: ATAinv =
np.zeros(ATA.shape)`.  `np.linalg.inv` raises exactly on a singular matrix
and otherwise returns the true inverse. -/
def invOrZero {n : ℕ} (A : Matrix (Fin n) (Fin n) ℚ) : Matrix (Fin n) (Fin n) ℚ :=
  if A.det ≠ 0 then (A.det)⁻¹ • A.adjugate else 0

/-- Source line 250 in the masked path: `scalesMTX = ATAinv.dot(ATd)`.
(The call `scalesMTX.filled(fill_value=0.0)` on source line 253 discards its
result and has no effect; it is therefore absent from the model.) -/
def scalesMasked {n P : ℕ} (d ν : Fin P → FVal) (tmpl : Fin n → Fin P → ℚ) :
    Fin n → ℚ :=
  (invOrZero (ATAm d ν tmpl)).mulVec (ATdm d ν tmpl)

/-- Source line 227 in the plain (no-mask) path: a column of the design
matrix, `img_model/noisecube_layer`, in plain float arithmetic. -/
def designF {P : ℕ} (ν : Fin P → FVal) (tmpl : Fin P → ℚ) (p : Fin P) : FVal :=
  fdiv (some (tmpl p)) (ν p)

/-- Source line 238 in the plain path: `dataravel = datacube_layer/noisecube_layer`. -/
def dataF {P : ℕ} (d ν : Fin P → FVal) (p : Fin P) : FVal :=
  fdiv (d p) (ν p)

/-- Source line 243 in the plain path: `ATA` in plain float arithmetic. -/
def ATAp {n P : ℕ} (ν : Fin P → FVal) (tmpl : Fin n → Fin P → ℚ) :
    Matrix (Fin n) (Fin n) FVal := fun s t =>
  fsum (List.ofFn fun p => fmul (designF ν (tmpl s) p) (designF ν (tmpl t) p))

/-- Source line 244 in the plain path: `ATd` in plain float arithmetic. -/
def ATdp {n P : ℕ} (d ν : Fin P → FVal) (tmpl : Fin n → Fin P → ℚ) :
    Fin n → FVal := fun s =>
  fsum (List.ofFn fun p => fmul (designF ν (tmpl s) p) (dataF d ν p))

/-- The finite part of a float matrix: `some` of the rational matrix when
every entry is finite, `none` otherwise. -/
def allFiniteM {n : ℕ} (M : Matrix (Fin n) (Fin n) FVal) :
    Option (Matrix (Fin n) (Fin n) ℚ) :=
  if h : ∀ s t, (M s t).isSome then some (fun s t => (M s t).get (h s t)) else none

/-- Source lines 246-250 in the plain path.  With finite `ATA`,
`np.linalg.inv` raises exactly on zero determinant (caught: zero matrix);
with a non-finite entry in `ATA` it does not raise and the resulting scales
are non-finite (e.g. `inv([[inf]]) = [[0.]]` and `0*inf = nan`). -/
def scalesPlain {n P : ℕ} (d ν : Fin P → FVal) (tmpl : Fin n → Fin P → ℚ) :
    Fin n → FVal :=
  match allFiniteM (ATAp ν tmpl) with
  | none => fun _ => none
  | some Q => fun s =>
      fsum (List.ofFn fun t => fmul (some (invOrZero Q s t)) (ATdp d ν tmpl t))

/-- The matrix-method layer solve of `gen_fullmodel` (source lines 148-266):
masked-array arithmetic when a non-finite pixel triggered `comb_mask`,
plain float arithmetic otherwise. -/
def solveLayerMTX {n P : ℕ} (d ν : Fin P → FVal) (tmpl : Fin n → Fin P → ℚ) :
    Fin n → FVal :=
  if maskPresent d ν then (fun s => some (scalesMasked d ν tmpl s))
  else scalesPlain d ν tmpl

/-- The finite normal-equations matrix `AᵗA` actually handed to
`np.linalg.inv` for a layer, when it is finite. -/
def layerNormal? {n P : ℕ} (d ν : Fin P → FVal) (tmpl : Fin n → Fin P → ℚ) :
    Option (Matrix (Fin n) (Fin n) ℚ) :=
  if maskPresent d ν then some (ATAm d ν tmpl) else allFiniteM (ATAp ν tmpl)

end TDOSE

namespace TDOSE

/-! ## The layer loop of `tdose_model_cube.gen_fullmodel`
(source lines 91-120, 332-342, 364). -/

/-- The solver identifiers of the `optimize_method` keyword. -/
inductive OptMethod
  | matrix | curvefit | lstsq | nnls
deriving DecidableEq

/-- Exceptions escaping `gen_fullmodel`. -/
inductive GFErr
  /-- `IndexError`: `noisecube[ll,:,:]` with `ll` beyond the noise cube. -/
  | noiseIndex (ll : ℕ)
  /-- `TypeError` at source line 339: `scale.tolist * Nsource` multiplies the
  (uncalled) bound method `tolist` by an integer. -/
  | typeErrorTolist (ll : ℕ)
deriving DecidableEq

/-- Warnings printed by the solve path. -/
inductive GFWarning
  /-- Source lines 163-164: NaNs/Infs replaced by fill values because the
  chosen optimizer cannot handle masked arrays. -/
  | maskFillReplacement
deriving DecidableEq

/-- Source line 160: the fill-and-warn branch triggers only for the
optimizers that cannot handle masked arrays. -/
def needsFill (ms : List OptMethod) : Bool :=
  ms.contains .curvefit || ms.contains .nnls || ms.contains .lstsq

/-- Source lines 160-166: warnings emitted while preparing a layer. -/
def fillWarnings (ms : List OptMethod) (mp : Bool) : List GFWarning :=
  if mp && needsFill ms then [.maskFillReplacement] else []

/-- A provided noise cube: number of layers and pixel values. -/
structure GFNoise (P : ℕ) where
  nl : ℕ
  val : ℕ → Fin P → FVal

/-- The inputs of `gen_fullmodel` relevant to the matrix solve path:
data cube, optional noise cube, and the per-layer unit source templates
(the PSF-convolved normalised model images; see the header note). -/
structure GFInput (n P : ℕ) where
  dataNl : ℕ
  data : ℕ → Fin P → FVal
  noise? : Option (GFNoise P)
  tmpl : ℕ → Fin n → Fin P → ℚ

/-- Source lines 97-100: a missing noise cube is replaced by a cube of ones
of the data shape. -/
def noiseNlEff {n P : ℕ} (I : GFInput n P) : ℕ :=
  match I.noise? with
  | none => I.dataNl
  | some N => N.nl

/-- The effective noise values (ones when no noise cube was provided). -/
def noiseEff {n P : ℕ} (I : GFInput n P) : ℕ → Fin P → FVal :=
  match I.noise? with
  | none => fun _ _ => some 1
  | some N => N.val

/-- The result of `gen_fullmodel`: the `layer_scales` array (initialised to
zeros on source line 94, column `ll` written on line 341) and the warnings
printed along the way. -/
structure GFOut (n : ℕ) where
  scales : ℕ → Fin n → FVal
  warnings : List GFWarning

/-- One iteration of the layer loop (source lines 119-342).  The first
access to `noisecube[ll,:,:]` (line 151 when fitting source scales, line 336
otherwise) raises `IndexError` for an out-of-range layer.  With
`fit_source_scales=False` the iteration always ends in the `TypeError` of
source line 339 (`scale.tolist * Nsource`). -/
def layerStep {n P : ℕ} (I : GFInput n P) (fit : Bool) (ll : ℕ) :
    Except GFErr ((Fin n → FVal) × List GFWarning) :=
  if ll < noiseNlEff I then
    if fit then
      .ok (solveLayerMTX (I.data ll) (noiseEff I ll) (I.tmpl ll),
        fillWarnings [OptMethod.matrix] (maskPresent (I.data ll) (noiseEff I ll)))
    else
      .error (.typeErrorTolist ll)
  else
    .error (.noiseIndex ll)

/-- The layer loop: process the given layers in order, writing each result
into column `ll` of `layer_scales`; an exception aborts the whole call. -/
def runLayers {n P : ℕ} (I : GFInput n P) (fit : Bool) :
    List ℕ → GFOut n → Except GFErr (GFOut n)
  | [], acc => .ok acc
  | ll :: rest, acc =>
    match layerStep I fit ll with
    | .error e => .error e
    | .ok sw => runLayers I fit rest
        ⟨Function.update acc.scales ll sw.1, acc.warnings ++ sw.2⟩

/-- `tdose_model_cube.gen_fullmodel` with `paramtype` in `{gauss, modelimg}`
and `optimize_method='matrix'`: loop over all layers (`model_layers=None`,
source lines 103-104) starting from the all-zero `layer_scales`. -/
def gen_fullmodel {n P : ℕ} (I : GFInput n P) (fit : Bool) :
    Except GFErr (GFOut n) :=
  runLayers I fit (List.range I.dataNl) ⟨fun _ _ => some 0, []⟩

/-- Whether an `Except` result is a normal return. -/
def isOkB {ε α : Type _} : Except ε α → Bool
  | .ok _ => true
  | .error _ => false

/-- The `layer_scales` entry of a `gen_fullmodel` result (junk `none` on an
exceptional result, which returns nothing). -/
def scalesAt {n : ℕ} (r : Except GFErr (GFOut n)) (ll : ℕ) (s : Fin n) : FVal :=
  match r with
  | .ok o => o.scales ll s
  | .error _ => none

/-- The warnings of a `gen_fullmodel` result (junk `[]` on an exception). -/
def warningsOf {n : ℕ} (r : Except GFErr (GFOut n)) : List GFWarning :=
  match r with
  | .ok o => o.warnings
  | .error _ => []

end TDOSE

namespace TDOSE

/-! ## Characterisation of the layer loop -/

/-- With only the `'matrix'` optimizer, the fill-and-warn branch of source
lines 160-166 never runs, so no warning is printed. -/
theorem fillWarnings_matrix (mp : Bool) : fillWarnings [OptMethod.matrix] mp = [] := by
  cases mp <;> rfl

/-- When every requested layer is within the noise cube, the loop (with
`fit_source_scales=True`) completes, writes each processed column, leaves
other columns at their initial value, and prints no warnings. -/
theorem runLayers_ok_char {n P : ℕ} (I : GFInput n P) (ls : List ℕ) (acc : GFOut n)
    (hnd : ls.Nodup) (hbd : ∀ ll ∈ ls, ll < noiseNlEff I) :
    runLayers I true ls acc = .ok
      ⟨fun ll => if ll ∈ ls
          then solveLayerMTX (I.data ll) (noiseEff I ll) (I.tmpl ll)
          else acc.scales ll,
        acc.warnings⟩ := by
  induction ls generalizing acc with
  | nil =>
    simp only [runLayers, List.not_mem_nil, if_false]
  | cons ll rest ih =>
    have hll : ll < noiseNlEff I := hbd ll (List.mem_cons_self ll rest)
    have hndr : rest.Nodup := (List.nodup_cons.mp hnd).2
    have hnin : ll ∉ rest := (List.nodup_cons.mp hnd).1
    have hstep : layerStep I true ll =
        .ok (solveLayerMTX (I.data ll) (noiseEff I ll) (I.tmpl ll), []) := by
      simp [layerStep, hll, fillWarnings_matrix]
    simp only [runLayers, hstep, List.append_nil]
    rw [ih _ hndr (fun x hx => hbd x (List.mem_cons.mpr (Or.inr hx)))]
    refine congrArg Except.ok ?_
    refine congrArg (fun f => GFOut.mk f acc.warnings) ?_
    funext x
    by_cases hx : x ∈ rest
    · simp [hx, List.mem_cons]
    · by_cases hxl : x = ll
      · subst hxl
        simp [hnin, Function.update_apply]
      · simp [hx, hxl, Function.update_apply, List.mem_cons]

/-- Splitting the layer loop: the second segment runs on the state left by a
successful first segment, and a raise in the first segment aborts. -/
theorem runLayers_append {n P : ℕ} (I : GFInput n P) (fit : Bool)
    (l1 l2 : List ℕ) (acc : GFOut n) :
    runLayers I fit (l1 ++ l2) acc =
      match runLayers I fit l1 acc with
      | .ok acc2 => runLayers I fit l2 acc2
      | .error e => .error e := by
  induction l1 generalizing acc with
  | nil => simp [runLayers]
  | cons ll rest ih =>
    simp only [List.cons_append, runLayers]
    cases hstep : layerStep I fit ll with
    | ok sw => exact ih _
    | error e => rfl

/-- `gen_fullmodel` (matrix method, per-source fitting) completes whenever
the noise cube has at least as many layers as the data cube, returning the
per-layer matrix solve in every processed column and zeros elsewhere, with
no warnings. -/
theorem gen_fullmodel_ok {n P : ℕ} (I : GFInput n P) (h : I.dataNl ≤ noiseNlEff I) :
    gen_fullmodel I true = .ok
      ⟨fun ll => if ll < I.dataNl
          then solveLayerMTX (I.data ll) (noiseEff I ll) (I.tmpl ll)
          else fun _ => some 0, []⟩ := by
  rw [gen_fullmodel, runLayers_ok_char I _ _ (List.nodup_range _)
    (fun ll hll => lt_of_lt_of_le (List.mem_range.mp hll) h)]
  refine congrArg Except.ok ?_
  refine congrArg (fun f => GFOut.mk f []) ?_
  funext ll
  simp [List.mem_range]

/-- When the provided noise cube has fewer layers than the data cube, the
run raises `IndexError` at the first missing layer — after all earlier
layers were already processed, not before the loop. -/
theorem gen_fullmodel_noise_short {n P : ℕ} (I : GFInput n P)
    (h : noiseNlEff I < I.dataNl) :
    gen_fullmodel I true = .error (.noiseIndex (noiseNlEff I)) := by
  obtain ⟨k, hk⟩ : ∃ k, I.dataNl = noiseNlEff I + (k + 1) := ⟨I.dataNl - noiseNlEff I - 1, by omega⟩
  rw [gen_fullmodel, hk, List.range_add, runLayers_append,
    runLayers_ok_char I _ _ (List.nodup_range _) (fun ll hll => List.mem_range.mp hll)]
  rw [List.range_succ_eq_map]
  simp only [List.map_cons, Nat.add_zero]
  simp [runLayers, layerStep]

end TDOSE

namespace TDOSE

/-! ## Properties of the matrix-method layer solve -/

theorem maskPresent_false_iff {P : ℕ} (d ν : Fin P → FVal) :
    maskPresent d ν = false ↔ ∀ p, d p ≠ none ∧ ν p ≠ none := by
  rw [maskPresent, decide_eq_false_iff_not]
  push_neg
  exact Iff.rfl

/-- A singular normal matrix in the masked path: the `except:` branch yields
the zero inverse, hence zero scales. -/
theorem scalesMasked_of_det_zero {n P : ℕ} (d ν : Fin P → FVal)
    (tmpl : Fin n → Fin P → ℚ) (hdet : (ATAm d ν tmpl).det = 0) (s : Fin n) :
    scalesMasked d ν tmpl s = 0 := by
  rw [scalesMasked, invOrZero, if_neg (by simp [hdet]), Matrix.zero_mulVec]
  rfl

/-- If the plain-path normal matrix is finite, every design-matrix entry was
finite. -/
theorem designF_isSome_of_allFinite {n P : ℕ} (ν : Fin P → FVal)
    (tmpl : Fin n → Fin P → ℚ) (Q : Matrix (Fin n) (Fin n) ℚ)
    (h : allFiniteM (ATAp ν tmpl) = some Q) (s : Fin n) (p : Fin P) :
    (designF ν (tmpl s) p).isSome := by
  rw [allFiniteM] at h
  by_cases hall : ∀ s t, ((ATAp ν tmpl) s t).isSome
  · have hss := hall s s
    rw [ATAp] at hss
    have hmem : fmul (designF ν (tmpl s) p) (designF ν (tmpl s) p) ∈
        List.ofFn fun q => fmul (designF ν (tmpl s) q) (designF ν (tmpl s) q) :=
      (List.mem_ofFn _ _).mpr ⟨p, rfl⟩
    exact (fmul_isSome (isSome_of_mem_fsum hss _ hmem)).1
  · rw [dif_neg hall] at h
    cases h

/-- A finite design column forces a finite nonzero noise pixel value. -/
theorem noise_ne_of_designF_isSome {P : ℕ} (ν : Fin P → FVal) (t : Fin P → ℚ)
    (p : Fin P) (h : (designF ν t p).isSome) :
    ν p ≠ none ∧ ν p ≠ some 0 := by
  rw [designF] at h
  cases hv : ν p with
  | none => rw [hv] at h; simp [fdiv] at h
  | some v =>
    rw [hv] at h
    refine ⟨by simp, ?_⟩
    intro hc
    have hv0 : v = 0 := by injection hc
    rw [hv0] at h
    simp [fdiv] at h

/-- Finite design columns and finite data make the plain-path `ATd` finite. -/
theorem ATdp_isSome {n P : ℕ} (d ν : Fin P → FVal) (tmpl : Fin n → Fin P → ℚ)
    (hdes : ∀ s p, (designF ν (tmpl s) p).isSome) (hd : ∀ p, (d p).isSome)
    (s : Fin n) : (ATdp d ν tmpl s).isSome := by
  rw [ATdp]
  refine fsum_isSome_of_forall ?_
  intro x hx
  rcases (List.mem_ofFn _ _).mp hx with ⟨p, rfl⟩
  show (fmul (designF ν (tmpl s) p) (dataF d ν p)).isSome
  rcases noise_ne_of_designF_isSome ν (tmpl s) p (hdes s p) with ⟨hν, hν0⟩
  cases hv : ν p with
  | none => exact absurd hv hν
  | some v =>
    have hv0 : v ≠ 0 := fun hc => hν0 (by rw [hv, hc])
    rcases Option.isSome_iff_exists.mp (hd p) with ⟨q, hq⟩
    rcases Option.isSome_iff_exists.mp (hdes s p) with ⟨w, hw⟩
    rw [hw]
    simp only [dataF, hq, hv, fdiv_some, if_neg hv0]
    rfl

/-- Singular finite normal matrix in the plain path: zero inverse, and since
`ATd` is finite the zero-times-finite products give exactly zero scales. -/
theorem scalesPlain_of_singular {n P : ℕ} (d ν : Fin P → FVal)
    (tmpl : Fin n → Fin P → ℚ) (Q : Matrix (Fin n) (Fin n) ℚ)
    (hQ : allFiniteM (ATAp ν tmpl) = some Q) (hdet : Q.det = 0)
    (hd : ∀ p, (d p).isSome) (s : Fin n) :
    scalesPlain d ν tmpl s = some 0 := by
  have hdes := designF_isSome_of_allFinite ν tmpl Q hQ
  rw [scalesPlain, hQ]
  refine fsum_of_forall_zero ?_
  intro x hx
  rcases (List.mem_ofFn _ _).mp hx with ⟨t, rfl⟩
  show fmul (some (invOrZero Q s t)) (ATdp d ν tmpl t) = some 0
  rcases Option.isSome_iff_exists.mp (ATdp_isSome d ν tmpl hdes hd t) with ⟨q, hq⟩
  rw [hq, invOrZero, if_neg (by simp [hdet])]
  simp

/-- With finite data/noise and nowhere-zero noise, the plain-path scales are
finite (no NaN can arise). -/
theorem scalesPlain_isSome {n P : ℕ} (d ν : Fin P → FVal)
    (tmpl : Fin n → Fin P → ℚ) (hd : ∀ p, (d p).isSome)
    (hν : ∀ p, (ν p).isSome) (hν0 : ∀ p, ν p ≠ some 0) (s : Fin n) :
    (scalesPlain d ν tmpl s).isSome := by
  have hdes : ∀ u p, (designF ν (tmpl u) p).isSome := by
    intro u p
    rcases Option.isSome_iff_exists.mp (hν p) with ⟨v, hv⟩
    have hv0 : v ≠ 0 := fun hc => hν0 p (by rw [hv, hc])
    simp [designF, hv, fdiv, hv0]
  have hQ : ∀ u t, ((ATAp ν tmpl) u t).isSome := by
    intro u t
    rw [ATAp]
    refine fsum_isSome_of_forall ?_
    intro x hx
    rcases (List.mem_ofFn _ _).mp hx with ⟨p, rfl⟩
    show (fmul (designF ν (tmpl u) p) (designF ν (tmpl t) p)).isSome
    rcases Option.isSome_iff_exists.mp (hdes u p) with ⟨a, ha⟩
    rcases Option.isSome_iff_exists.mp (hdes t p) with ⟨b, hb⟩
    rw [ha, hb]; rfl
  rw [scalesPlain, allFiniteM, dif_pos hQ]
  refine fsum_isSome_of_forall ?_
  intro x hx
  rcases (List.mem_ofFn _ _).mp hx with ⟨t, rfl⟩
  show (fmul (some _) (ATdp d ν tmpl t)).isSome
  rcases Option.isSome_iff_exists.mp (ATdp_isSome d ν tmpl hdes hd t) with ⟨q, hq⟩
  rw [hq]; rfl

/-- Whenever the noise layer has no zero values, a solved layer contains no
non-finite scale. -/
theorem solveLayerMTX_isSome {n P : ℕ} (d ν : Fin P → FVal)
    (tmpl : Fin n → Fin P → ℚ) (hν0 : ∀ p, ν p ≠ some 0) (s : Fin n) :
    (solveLayerMTX d ν tmpl s).isSome := by
  rw [solveLayerMTX]
  by_cases hmp : maskPresent d ν = true
  · rw [if_pos hmp]
    simp
  · rw [if_neg hmp]
    have hfin := (maskPresent_false_iff d ν).mp (Bool.not_eq_true _ ▸ hmp)
    exact scalesPlain_isSome d ν tmpl
      (fun p => Option.ne_none_iff_isSome.mp (hfin p).1)
      (fun p => Option.ne_none_iff_isSome.mp (hfin p).2) hν0 s

/-- A layer whose (finite) normal-equations matrix is singular is recovered
with exactly zero scales for every source. -/
theorem solveLayerMTX_singular_zero {n P : ℕ} (d ν : Fin P → FVal)
    (tmpl : Fin n → Fin P → ℚ) (M : Matrix (Fin n) (Fin n) ℚ)
    (hM : layerNormal? d ν tmpl = some M) (hdet : M.det = 0) (s : Fin n) :
    solveLayerMTX d ν tmpl s = some 0 := by
  rw [layerNormal?] at hM
  rw [solveLayerMTX]
  by_cases hmp : maskPresent d ν = true
  · rw [if_pos hmp] at hM ⊢
    have hMe : M = ATAm d ν tmpl := by
      cases hM; rfl
    rw [scalesMasked_of_det_zero d ν tmpl (by rw [← hMe]; exact hdet) s]
  · rw [if_neg hmp] at hM ⊢
    have hfin := (maskPresent_false_iff d ν).mp (Bool.not_eq_true _ ▸ hmp)
    exact scalesPlain_of_singular d ν tmpl M hM hdet
      (fun p => Option.ne_none_iff_isSome.mp (hfin p).1) s

/-- An all-invalid layer (every pixel non-finite in data or noise) yields a
zero normal matrix, so its scales are all exactly zero. -/
theorem solveLayerMTX_allinvalid {n P : ℕ} (d ν : Fin P → FVal)
    (tmpl : Fin n → Fin P → ℚ) (hinv : ∀ p, d p = none ∨ ν p = none)
    (s : Fin n) : solveLayerMTX d ν tmpl s = some 0 := by
  rw [solveLayerMTX]
  by_cases hmp : maskPresent d ν = true
  · rw [if_pos hmp]
    have hATA : ATAm d ν tmpl = 0 := by
      funext u t
      rw [ATAm]
      refine Finset.sum_eq_zero ?_
      intro p _
      have hm : entMask d ν p = true := by
        rcases hinv p with hD | hN
        · simp [entMask, combMask, hD]
        · simp [entMask, combMask, hN]
      rw [if_pos hm]
    rw [scalesMasked_of_det_zero d ν tmpl (by rw [hATA, Matrix.det_zero ⟨s⟩]) s]
  · rw [if_neg hmp]
    have hfin := (maskPresent_false_iff d ν).mp (Bool.not_eq_true _ ▸ hmp)
    have hP0 : P = 0 := by
      cases P with
      | zero => rfl
      | succ m =>
        rcases hinv ⟨0, Nat.succ_pos m⟩ with hD | hN
        · exact absurd hD (hfin _).1
        · exact absurd hN (hfin _).2
    subst hP0
    have hQ : ∀ u t, ((ATAp ν tmpl) u t).isSome := by
      intro u t
      rw [ATAp]
      simp [List.ofFn_zero]
    have hQval : allFiniteM (ATAp ν tmpl) =
        some (fun u t => ((ATAp ν tmpl) u t).get (hQ u t)) := by
      rw [allFiniteM, dif_pos hQ]
    have hzero : (fun u t => ((ATAp ν tmpl) u t).get (hQ u t)) =
        (0 : Matrix (Fin n) (Fin n) ℚ) := by
      funext u t
      have hv : (ATAp ν tmpl) u t = some 0 := by
        rw [ATAp]
        simp [List.ofFn_zero]
      simp [hv]
    exact scalesPlain_of_singular d ν tmpl _ hQval
      (by rw [hzero, Matrix.det_zero ⟨s⟩]) (fun p => absurd p.2 (by omega)) s

end TDOSE

namespace TDOSE

/-! ## `tdose_extract_spectra.extract_spectrum` (source lines 104-260)

`n` sources, `L` wavelength layers, `P` spatial pixels per layer.
`scale` is the layer-scale (weight) matrix read from the model cube,
`srcIDs` the constituent sources of the object (the check of source lines
143-147 that each requested source exists is typed away by `Fin n`),
`noise?` the optional noise cube (sqrt variance), `srcmodel` the dense
source model cube, `data?` the optional data cube.  Fluxes are exact
rationals; the noise and S/N outputs are carried at the squared level
(see the header note), with `none` = NaN. -/

/-- Exceptions escaping `extract_spectrum`. -/
inductive ExErr
  /-- `np.max` of an empty source list raises `ValueError` (source line 144). -/
  | emptySources
  /-- `sys.exit` of source line 158: aperture extraction without a data cube. -/
  | noDataCube
deriving DecidableEq

/-- The inputs of `extract_spectrum`. -/
structure ExtractIn (n L P : ℕ) where
  scale : Fin n → Fin L → ℚ
  srcIDs : List (Fin n)
  noise? : Option (Fin L → Fin P → FVal)
  srcmodel : Fin n → Fin L → Fin P → FVal
  data? : Option (Fin L → Fin P → FVal)

/-- An extracted spectrum: flux, squared fluxerror, squared S/N per layer. -/
structure Spectrum (L : ℕ) where
  flux : Fin L → ℚ
  noiseSq : Fin L → FVal
  snSq : Fin L → FVal

/-- Source line 154: `(layer_scale_arr == 1).all()` — the aperture branch is
selected exactly when every weight equals 1. -/
def allScalesOne {n L P : ℕ} (E : ExtractIn n L P) : Bool :=
  decide (∀ s ℓ, E.scale s ℓ = 1)

/-- Source line 156: `object_cube = np.sum(np.abs(source_model_cube[source_ent]),axis=0)`. -/
def objCubeAp {n L P : ℕ} (E : ExtractIn n L P) (ℓ : Fin L) (p : Fin P) : FVal :=
  fsum (E.srcIDs.map fun s => fabs (E.srcmodel s ℓ p))

/-- Source lines 160-162: `comb_mask`, masking zeros of the object cube and
non-finite data pixels.  (A non-finite object-cube value compares unequal
to 0 and is hence *not* masked, as in numpy.) -/
def apMask {n L P : ℕ} (E : ExtractIn n L P) (dc : Fin L → Fin P → FVal)
    (ℓ : Fin L) (p : Fin P) : Bool :=
  (dc ℓ p).isNone || decide (objCubeAp E ℓ p = some 0)

/-- Source lines 163-164: the aperture flux, the masked sum of data pixels
(`.filled(fill_value=0.0)` makes a fully masked layer contribute 0, which
coincides with the empty masked sum). -/
def fluxAp {n L P : ℕ} (E : ExtractIn n L P) (dc : Fin L → Fin P → FVal)
    (ℓ : Fin L) : ℚ :=
  ∑ p, if apMask E dc ℓ p then 0 else (dc ℓ p).getD 0

/-- Source lines 168-169: the noise mask additionally excludes non-finite
noise pixels. -/
def apNoiseMask {n L P : ℕ} (E : ExtractIn n L P) (dc ν : Fin L → Fin P → FVal)
    (ℓ : Fin L) (p : Fin P) : Bool :=
  apMask E dc ℓ p || (ν ℓ p).isNone

/-- Source lines 170-172 at the squared level: the masked sum of squared
noise values; a fully masked layer is `.filled(np.nan)`, i.e. `none`. -/
def noiseSqAp {n L P : ℕ} (E : ExtractIn n L P) (dc ν : Fin L → Fin P → FVal)
    (ℓ : Fin L) : FVal :=
  if ∀ p, apNoiseMask E dc ν ℓ p then none
  else some (∑ p, if apNoiseMask E dc ν ℓ p then 0 else ((ν ℓ p).getD 0) ^ 2)

/-- Source line 185: the deblended flux, `np.sum(layer_scale_arr[source_ent,:],axis=0)`. -/
def fluxDeb {n L P : ℕ} (E : ExtractIn n L P) (ℓ : Fin L) : ℚ :=
  (E.srcIDs.map fun s => E.scale s ℓ).sum

/-- Source lines 193-199: the flux-fraction cube — the accumulated sum over
constituent sources of `source model / layer scale` (a zero layer scale
gives a non-finite fraction), renormalised by the number of sources. -/
def fluxfracDeb {n L P : ℕ} (E : ExtractIn n L P) (ℓ : Fin L) (p : Fin P) : FVal :=
  fdiv (E.srcIDs.foldl
          (fun acc s => fadd acc (fdiv (E.srcmodel s ℓ p) (some (E.scale s ℓ))))
          (some 0))
       (some (E.srcIDs.length : ℚ))

/-- Source lines 204-211: the mask of `squared_ratio` — non-finite
flux-fraction or noise pixels (`comb_mask`), plus the zero-divisor domain
mask that masked division adds at zero noise pixels. -/
def debMask {n L P : ℕ} (E : ExtractIn n L P) (ν : Fin L → Fin P → FVal)
    (ℓ : Fin L) (p : Fin P) : Bool :=
  (fluxfracDeb E ℓ p).isNone || (ν ℓ p).isNone || decide (ν ℓ p = some 0)

/-- The masked sum of `fluxfrac² / noise²` over a layer (source line 213 at
the squared level). -/
def debS {n L P : ℕ} (E : ExtractIn n L P) (ν : Fin L → Fin P → FVal)
    (ℓ : Fin L) : ℚ :=
  ∑ p, if debMask E ν ℓ p then 0
       else ((fluxfracDeb E ℓ p).getD 0) ^ 2 / ((ν ℓ p).getD 1) ^ 2

/-- Source line 213: `inv_noise_masked` at the squared level; a fully masked
layer leaves the masked sum masked. -/
def debInvNoiseSq {n L P : ℕ} (E : ExtractIn n L P) (ν : Fin L → Fin P → FVal)
    (ℓ : Fin L) : FVal :=
  if ∀ p, debMask E ν ℓ p then none else some (debS E ν ℓ)

/-- Source line 214 at the squared level:
`noise_1D = (1.0/inv_noise_masked).filled(fill_value=0.0)` — masked entries
(fully masked layer, or the zero-divisor domain mask when the sum is 0) are
filled with 0, so the deblended noise is always finite. -/
def debNoiseSq {n L P : ℕ} (E : ExtractIn n L P) (ν : Fin L → Fin P → FVal)
    (ℓ : Fin L) : ℚ :=
  match debInvNoiseSq E ν ℓ with
  | none => 0
  | some S => if S = 0 then 0 else 1 / S

/-- `tdose_extract_spectra.extract_spectrum`: dispatch on
`(layer_scale_arr == 1).all()` (source line 154), aperture extraction
(lines 155-179) or deblended extraction (lines 180-220), S/N and fluxerror
at the squared level, errors for the raises of lines 144 and 158. -/
def extract_spectrum {n L P : ℕ} (E : ExtractIn n L P) :
    Except ExErr (Spectrum L) :=
  if E.srcIDs.isEmpty then .error .emptySources
  else if allScalesOne E then
    match E.data? with
    | none => .error .noDataCube
    | some dc =>
      match E.noise? with
      | some ν => .ok ⟨fluxAp E dc, noiseSqAp E dc ν,
          fun ℓ => fdiv (some ((fluxAp E dc ℓ) ^ 2)) (noiseSqAp E dc ν ℓ)⟩
      | none => .ok ⟨fluxAp E dc, fun _ => none, fun _ => none⟩
  else
    match E.noise? with
    | some ν => .ok ⟨fluxDeb E, fun ℓ => some (debNoiseSq E ν ℓ),
        fun ℓ => fdiv (some ((fluxDeb E ℓ) ^ 2)) (some (debNoiseSq E ν ℓ))⟩
    | none => .ok ⟨fluxDeb E, fun _ => none, fun _ => none⟩

/-- The spectrum of an extraction result (junk zeros/NaNs on an exceptional
result, which returns nothing). -/
def spectrumOf {L : ℕ} (r : Except ExErr (Spectrum L)) : Spectrum L :=
  match r with
  | .ok sp => sp
  | .error _ => ⟨fun _ => 0, fun _ => none, fun _ => none⟩

end TDOSE

namespace TDOSE

/-! ## Branch equations of `extract_spectrum` -/

/-- Deblended branch with a noise cube (source lines 180-216). -/
theorem extract_spectrum_deb {n L P : ℕ} (E : ExtractIn n L P)
    (ν : Fin L → Fin P → FVal) (hne : E.srcIDs ≠ [])
    (hao : allScalesOne E = false) (hν : E.noise? = some ν) :
    extract_spectrum E = .ok ⟨fluxDeb E, fun ℓ => some (debNoiseSq E ν ℓ),
      fun ℓ => fdiv (some ((fluxDeb E ℓ) ^ 2)) (some (debNoiseSq E ν ℓ))⟩ := by
  rw [extract_spectrum, if_neg (by simp [List.isEmpty_iff, hne]),
    if_neg (by simp [hao]), hν]

/-- Deblended branch without a noise cube (source lines 217-220). -/
theorem extract_spectrum_deb_nonoise {n L P : ℕ} (E : ExtractIn n L P)
    (hne : E.srcIDs ≠ []) (hao : allScalesOne E = false) (hν : E.noise? = none) :
    extract_spectrum E = .ok ⟨fluxDeb E, fun _ => none, fun _ => none⟩ := by
  rw [extract_spectrum, if_neg (by simp [List.isEmpty_iff, hne]),
    if_neg (by simp [hao]), hν]

/-- Aperture branch with data and noise cubes (source lines 154-175). -/
theorem extract_spectrum_ap {n L P : ℕ} (E : ExtractIn n L P)
    (dc ν : Fin L → Fin P → FVal) (hne : E.srcIDs ≠ [])
    (hao : allScalesOne E = true) (hdc : E.data? = some dc)
    (hν : E.noise? = some ν) :
    extract_spectrum E = .ok ⟨fluxAp E dc, noiseSqAp E dc ν,
      fun ℓ => fdiv (some ((fluxAp E dc ℓ) ^ 2)) (noiseSqAp E dc ν ℓ)⟩ := by
  rw [extract_spectrum, if_neg (by simp [List.isEmpty_iff, hne]), if_pos hao,
    hdc, hν]

/-- Aperture branch with a data cube but no noise cube (source lines 176-179). -/
theorem extract_spectrum_ap_nonoise {n L P : ℕ} (E : ExtractIn n L P)
    (dc : Fin L → Fin P → FVal) (hne : E.srcIDs ≠ [])
    (hao : allScalesOne E = true) (hdc : E.data? = some dc)
    (hν : E.noise? = none) :
    extract_spectrum E = .ok ⟨fluxAp E dc, fun _ => none, fun _ => none⟩ := by
  rw [extract_spectrum, if_neg (by simp [List.isEmpty_iff, hne]), if_pos hao,
    hdc, hν]

end TDOSE

namespace TDOSE

/-! ## `tdose_modify_cube.remove_object` (source lines 113-145)

The data cube is flattened to `Q` entries (layers × pixels); the source
model cube holds `N` models of the same shape. -/

/-- Exceptions escaping `remove_object`. -/
inductive ROErr
  /-- `np.max` of an empty object list raises `ValueError` (source line 129). -/
  | emptyObjects
  /-- `sys.exit` of source line 131: a referenced model does not exist. -/
  | invalidRef (m : ℕ)
deriving DecidableEq

/-- `tdose_modify_cube.remove_object`: check the object references (source
lines 126-133), choose the models to remove — the given objects when
`remove=True`, `np.setdiff1d(models, objects)` otherwise (lines 135-141) —
and subtract their pixelwise sum from the data (lines 143-145). -/
def remove_object {Q : ℕ} (dataarr : Fin Q → ℚ) (sourcemodel : ℕ → Fin Q → ℚ)
    (N : ℕ) (objects : List ℕ) (remove : Bool) : Except ROErr (Fin Q → ℚ) :=
  if objects = [] then .error .emptyObjects
  else if N ≤ objects.foldr max 0 then .error (.invalidRef (objects.foldr max 0))
  else
    let obj_remove := if remove then objects
                      else (List.range N).filter (fun m => m ∉ objects)
    .ok (fun p => dataarr p - (obj_remove.map (fun m => sourcemodel m p)).sum)

/-- The modified cube of a `remove_object` result (junk zeros on an
exceptional result, which returns nothing). -/
def cubeOf {Q : ℕ} (r : Except ROErr (Fin Q → ℚ)) : Fin Q → ℚ :=
  match r with
  | .ok c => c
  | .error _ => fun _ => 0

end TDOSE

namespace TDOSE

/-! ## Reference formulas following the words of the specification

Each definition in this section follows the WORDS of a spec sentence (not
the source code); they exist only to compare a claimed formula against the
behaviour of the embedded source. -/

/-- Spec wording of the aperture object mask: "pixels where the summed
constituent templates are nonzero" (no absolute values), "excluding
non-finite data pixels".  A non-finite template sum compares unequal to 0
and therefore counts as nonzero. -/
def specApInSet {n L P : ℕ} (E : ExtractIn n L P) (dc : Fin L → Fin P → FVal)
    (ℓ : Fin L) (p : Fin P) : Bool :=
  (dc ℓ p).isSome && !(decide (fsum (E.srcIDs.map fun s => E.srcmodel s ℓ p) = some 0))

/-- Spec wording of the aperture flux: the sum of data pixels over
`specApInSet`. -/
def specApFlux {n L P : ℕ} (E : ExtractIn n L P) (dc : Fin L → Fin P → FVal)
    (ℓ : Fin L) : ℚ :=
  ∑ p, if specApInSet E dc ℓ p then (dc ℓ p).getD 0 else 0

/-- Spec wording of the aperture noise (squared level): "sqrt of the sum of
the squared noise values over that same mask" — the same `specApInSet`, with
no exclusion of non-finite noise values. -/
def specApNoiseSq {n L P : ℕ} (E : ExtractIn n L P) (dc ν : Fin L → Fin P → FVal)
    (ℓ : Fin L) : FVal :=
  fsum (List.ofFn fun p =>
    if specApInSet E dc ℓ p then fmul (ν ℓ p) (ν ℓ p) else some 0)

/-- Spec wording of the deblended noise (squared level):
`noise = 1/sqrt(Σ fluxfrac²/noise²)` with exactly the pixels that are
non-finite in the flux-fraction cube or the noise cube excluded. -/
def specDebNoiseSq {n L P : ℕ} (E : ExtractIn n L P) (ν : Fin L → Fin P → FVal)
    (ℓ : Fin L) : FVal :=
  fdiv (some 1)
    (fsum (List.ofFn fun p =>
      if (fluxfracDeb E ℓ p).isNone || (ν ℓ p).isNone then some 0
      else fdiv (fmul (fluxfracDeb E ℓ p) (fluxfracDeb E ℓ p))
                (fmul (ν ℓ p) (ν ℓ p))))

end TDOSE

namespace TDOSE

/-! ## Mask characterisations and closed forms of the extraction formulas -/

theorem apMask_false_iff {n L P : ℕ} (E : ExtractIn n L P)
    (dc : Fin L → Fin P → FVal) (ℓ : Fin L) (p : Fin P) :
    apMask E dc ℓ p = false ↔ (dc ℓ p).isSome ∧ objCubeAp E ℓ p ≠ some 0 := by
  rw [apMask]
  cases hdc : dc ℓ p <;> simp [Option.isNone, Option.isSome]

theorem apNoiseMask_false_iff {n L P : ℕ} (E : ExtractIn n L P)
    (dc ν : Fin L → Fin P → FVal) (ℓ : Fin L) (p : Fin P) :
    apNoiseMask E dc ν ℓ p = false ↔
      ((dc ℓ p).isSome ∧ objCubeAp E ℓ p ≠ some 0) ∧ (ν ℓ p).isSome := by
  rw [apNoiseMask, Bool.or_eq_false_iff, apMask_false_iff]
  cases hν : ν ℓ p <;> simp [Option.isNone, Option.isSome]

theorem debMask_false_iff {n L P : ℕ} (E : ExtractIn n L P)
    (ν : Fin L → Fin P → FVal) (ℓ : Fin L) (p : Fin P) :
    debMask E ν ℓ p = false ↔
      (fluxfracDeb E ℓ p).isSome ∧ (ν ℓ p).isSome ∧ ν ℓ p ≠ some 0 := by
  rw [debMask, Bool.or_eq_false_iff, Bool.or_eq_false_iff]
  cases hf : fluxfracDeb E ℓ p <;> cases hν : ν ℓ p <;>
    simp [Option.isNone, Option.isSome]

/-- The aperture flux as a sum over the unmasked pixel set. -/
theorem fluxAp_filter {n L P : ℕ} (E : ExtractIn n L P)
    (dc : Fin L → Fin P → FVal) (ℓ : Fin L) :
    fluxAp E dc ℓ =
      ∑ p ∈ Finset.univ.filter
          (fun p => (dc ℓ p).isSome ∧ objCubeAp E ℓ p ≠ some 0),
        (dc ℓ p).getD 0 := by
  rw [fluxAp, Finset.sum_filter]
  refine Finset.sum_congr rfl ?_
  intro p _
  by_cases h : apMask E dc ℓ p = false
  · rw [h, if_neg (by simp), if_pos ((apMask_false_iff E dc ℓ p).mp h)]
  · have ht : apMask E dc ℓ p = true := by
      cases hb : apMask E dc ℓ p
      · exact absurd hb h
      · rfl
    rw [ht, if_pos rfl, if_neg]
    intro hc
    rw [(apMask_false_iff E dc ℓ p).mpr hc] at ht
    cases ht

/-- The aperture squared noise as a sum over the unmasked pixel set. -/
theorem noiseSqAp_filter {n L P : ℕ} (E : ExtractIn n L P)
    (dc ν : Fin L → Fin P → FVal) (ℓ : Fin L)
    (hnm : ¬ ∀ p, apNoiseMask E dc ν ℓ p) :
    noiseSqAp E dc ν ℓ =
      some (∑ p ∈ Finset.univ.filter
          (fun p => ((dc ℓ p).isSome ∧ objCubeAp E ℓ p ≠ some 0) ∧ (ν ℓ p).isSome),
        ((ν ℓ p).getD 0) ^ 2) := by
  rw [noiseSqAp, if_neg hnm, Finset.sum_filter]
  refine congrArg some (Finset.sum_congr rfl ?_)
  intro p _
  by_cases h : apNoiseMask E dc ν ℓ p = false
  · rw [h, if_neg (by simp), if_pos ((apNoiseMask_false_iff E dc ν ℓ p).mp h)]
  · have ht : apNoiseMask E dc ν ℓ p = true := by
      cases hb : apNoiseMask E dc ν ℓ p
      · exact absurd hb h
      · rfl
    rw [ht, if_pos rfl, if_neg]
    intro hc
    rw [(apNoiseMask_false_iff E dc ν ℓ p).mpr hc] at ht
    cases ht

/-- The deblended masked sum `Σ fluxfrac²/noise²` as a sum over the valid
pixel set. -/
theorem debS_filter {n L P : ℕ} (E : ExtractIn n L P)
    (ν : Fin L → Fin P → FVal) (ℓ : Fin L) :
    debS E ν ℓ =
      ∑ p ∈ Finset.univ.filter
          (fun p => (fluxfracDeb E ℓ p).isSome ∧ (ν ℓ p).isSome ∧ ν ℓ p ≠ some 0),
        ((fluxfracDeb E ℓ p).getD 0) ^ 2 / ((ν ℓ p).getD 1) ^ 2 := by
  rw [debS, Finset.sum_filter]
  refine Finset.sum_congr rfl ?_
  intro p _
  by_cases h : debMask E ν ℓ p = false
  · rw [h, if_neg (by simp), if_pos ((debMask_false_iff E ν ℓ p).mp h)]
  · have ht : debMask E ν ℓ p = true := by
      cases hb : debMask E ν ℓ p
      · exact absurd hb h
      · rfl
    rw [ht, if_pos rfl, if_neg]
    intro hc
    rw [(debMask_false_iff E ν ℓ p).mpr hc] at ht
    cases ht

/-- The per-source accumulation loop of the flux-fraction cube equals the
list sum of the per-source fractions (the shape in which the spec states
the flux-fraction image). -/
theorem fluxfracDeb_eq_sum {n L P : ℕ} (E : ExtractIn n L P)
    (ℓ : Fin L) (p : Fin P) :
    fluxfracDeb E ℓ p =
      fdiv (fsum (E.srcIDs.map fun s => fdiv (E.srcmodel s ℓ p) (some (E.scale s ℓ))))
           (some (E.srcIDs.length : ℚ)) := by
  rw [fluxfracDeb]
  have h := foldl_fadd
    (E.srcIDs.map fun s => fdiv (E.srcmodel s ℓ p) (some (E.scale s ℓ))) (some 0)
  rw [List.foldl_map] at h
  rw [h]
  cases hf : fsum (E.srcIDs.map fun s => fdiv (E.srcmodel s ℓ p) (some (E.scale s ℓ))) with
  | none => rfl
  | some q => simp [fadd]

end TDOSE

namespace TDOSE

/-- Plain path with a non-finite normal matrix: `np.linalg.inv` does not
raise, and the scales are non-finite. -/
theorem scalesPlain_of_allFiniteM_none {n P : ℕ} (d ν : Fin P → FVal)
    (tmpl : Fin n → Fin P → ℚ) (h : allFiniteM (ATAp ν tmpl) = none)
    (s : Fin n) : scalesPlain d ν tmpl s = none := by
  rw [scalesPlain, h]

/-! ## Claim C1 -/

/-- The concrete input refuting C1: one source, one layer, one pixel;
finite data 1, finite noise 0, unit template (on a 1×1 image every
normalised template is exactly 1, whatever the PSF). -/
def cexC1 : GFInput 1 1 :=
  ⟨1, fun _ _ => some 1, some ⟨1, fun _ _ => some 0⟩, fun _ _ _ => 1⟩

/-- C1, counterexample.  The claim states that `layer_scales` never contains
a NaN entry.  On `cexC1` all pixels are finite, so no mask is built and the
design matrix is computed in plain float arithmetic: `template/noise = 1/0`
is non-finite, the normal equations are non-finite, `np.linalg.inv` does not
raise (so the zeroing `except:` branch is not taken), and the stored scale
of layer 0 is non-finite (numpy stores `0*inf = nan`) — yet the run
completes normally.  The weight matrix returned by `gen_fullmodel` therefore
contains a NaN entry. -/
theorem layer_scales_nan_counterexample :
    isOkB (gen_fullmodel cexC1 true) = true ∧
    scalesAt (gen_fullmodel cexC1 true) 0 0 = none := by
  have hshape : cexC1.dataNl ≤ noiseNlEff cexC1 := Nat.le_refl 1
  rw [gen_fullmodel_ok cexC1 hshape]
  refine ⟨rfl, ?_⟩
  rw [scalesAt]
  show (if (0 : ℕ) < cexC1.dataNl
      then solveLayerMTX (cexC1.data 0) (noiseEff cexC1 0) (cexC1.tmpl 0)
      else fun _ => some 0) 0 = none
  rw [if_pos (by norm_num [cexC1])]
  have hmp : maskPresent (cexC1.data 0) (noiseEff cexC1 0) = false := by
    simp [maskPresent, cexC1, noiseEff]
  have hATA : ATAp (noiseEff cexC1 0) (cexC1.tmpl 0) 0 0 = none := by
    simp [ATAp, designF, cexC1, noiseEff, List.ofFn_succ, fdiv]
  have hAllF : allFiniteM (ATAp (noiseEff cexC1 0) (cexC1.tmpl 0)) = none := by
    rw [allFiniteM, dif_neg]
    intro hall
    have h00 := hall 0 0
    rw [hATA] at h00
    simp at h00
  rw [solveLayerMTX, if_neg (by simp [hmp])]
  exact scalesPlain_of_allFiniteM_none _ _ _ hAllF 0

/-- C1, amended.  Provided the noise cube has no zero values in the
processed layers (zero noise pixels in an all-finite layer are the only way
a non-finite value can enter the solve), `gen_fullmodel` completes, every
entry of `layer_scales` is a finite number — and a layer whose solve fails
(singular normal-equations matrix, recovered by the `except:` branch)
stores exactly 0 for every source, never NaN. -/
theorem layer_scales_no_nan {n P : ℕ} (I : GFInput n P)
    (hshape : I.dataNl ≤ noiseNlEff I)
    (hν0 : ∀ ll, ll < I.dataNl → ∀ p, noiseEff I ll p ≠ some 0) :
    isOkB (gen_fullmodel I true) = true ∧
    (∀ ll s, (scalesAt (gen_fullmodel I true) ll s).isSome) ∧
    (∀ ll, ll < I.dataNl → ∀ M,
      layerNormal? (I.data ll) (noiseEff I ll) (I.tmpl ll) = some M →
      M.det = 0 → ∀ s, scalesAt (gen_fullmodel I true) ll s = some 0) := by
  rw [gen_fullmodel_ok I hshape]
  refine ⟨rfl, ?_, ?_⟩
  · intro ll s
    rw [scalesAt]
    show ((if ll < I.dataNl
        then solveLayerMTX (I.data ll) (noiseEff I ll) (I.tmpl ll)
        else fun _ => some 0) s).isSome
    by_cases hll : ll < I.dataNl
    · rw [if_pos hll]
      exact solveLayerMTX_isSome _ _ _ (hν0 ll hll) s
    · rw [if_neg hll]
      rfl
  · intro ll hll M hM hdet s
    rw [scalesAt]
    show (if ll < I.dataNl
        then solveLayerMTX (I.data ll) (noiseEff I ll) (I.tmpl ll)
        else fun _ => some 0) s = some 0
    rw [if_pos hll]
    exact solveLayerMTX_singular_zero _ _ _ M hM hdet s

/-- A well-behaved concrete input for the witness of `layer_scales_no_nan`:
noise 2 everywhere. -/
def witC1 : GFInput 1 1 :=
  ⟨1, fun _ _ => some 1, some ⟨1, fun _ _ => some 2⟩, fun _ _ _ => 1⟩

/-- Witness for `layer_scales_no_nan` at `witC1`. -/
theorem layer_scales_no_nan_witness :
    isOkB (gen_fullmodel witC1 true) = true ∧
    (scalesAt (gen_fullmodel witC1 true) 0 0).isSome := by
  have h := layer_scales_no_nan witC1 (Nat.le_refl 1)
    (by intro ll _ p; simp [noiseEff, witC1])
  exact ⟨h.1, h.2.1 0 0⟩

end TDOSE

namespace TDOSE

/-! ## Claim C2 -/

/-- C2.  A layer in which every pixel is non-finite in the data or the noise
image triggers the mask path with every pixel masked: the masked dot
products fill all entries with zero, `np.linalg.inv` raises on the zero
matrix, the `except:` branch zeroes the inverse, and the stored scale vector
of that layer is exactly zero for every source.  The run does not raise, and
every other processed layer still holds its own per-layer solve. -/
theorem allinvalid_layer_zero_scales {n P : ℕ} (I : GFInput n P) (ll : ℕ)
    (hshape : I.dataNl ≤ noiseNlEff I) (hll : ll < I.dataNl)
    (hinv : ∀ p, I.data ll p = none ∨ noiseEff I ll p = none) :
    isOkB (gen_fullmodel I true) = true ∧
    (∀ s, scalesAt (gen_fullmodel I true) ll s = some 0) ∧
    (∀ ll2, ll2 < I.dataNl → ∀ s, scalesAt (gen_fullmodel I true) ll2 s =
      solveLayerMTX (I.data ll2) (noiseEff I ll2) (I.tmpl ll2) s) := by
  rw [gen_fullmodel_ok I hshape]
  refine ⟨rfl, ?_, ?_⟩
  · intro s
    rw [scalesAt]
    show (if ll < I.dataNl
        then solveLayerMTX (I.data ll) (noiseEff I ll) (I.tmpl ll)
        else fun _ => some 0) s = some 0
    rw [if_pos hll]
    exact solveLayerMTX_allinvalid _ _ _ hinv s
  · intro ll2 hll2 s
    rw [scalesAt]
    show (if ll2 < I.dataNl
        then solveLayerMTX (I.data ll2) (noiseEff I ll2) (I.tmpl ll2)
        else fun _ => some 0) s = solveLayerMTX (I.data ll2) (noiseEff I ll2) (I.tmpl ll2) s
    rw [if_pos hll2]

/-- Concrete input for the witness of `allinvalid_layer_zero_scales`: a
single layer whose only data pixel is NaN. -/
def witC2 : GFInput 1 1 :=
  ⟨1, fun _ _ => none, some ⟨1, fun _ _ => some 1⟩, fun _ _ _ => 1⟩

/-- Witness for `allinvalid_layer_zero_scales` at `witC2`. -/
theorem allinvalid_layer_zero_scales_witness :
    isOkB (gen_fullmodel witC2 true) = true ∧
    scalesAt (gen_fullmodel witC2 true) 0 0 = some 0 := by
  have h := allinvalid_layer_zero_scales witC2 0 (Nat.le_refl 1)
    (by norm_num [witC2]) (by intro p; exact Or.inl rfl)
  exact ⟨h.1, h.2.1 0⟩

end TDOSE

namespace TDOSE

/-! ## Claim C3 -/

/-- The determinant of the finite normal-equations matrix handed to
`np.linalg.inv` for a layer (when that matrix is finite). -/
def layerNormalDet? {n P : ℕ} (d ν : Fin P → FVal) (tmpl : Fin n → Fin P → ℚ) :
    Option ℚ :=
  (layerNormal? d ν tmpl).map Matrix.det

theorem get_eq_of_eq_some {α : Type _} {o : Option α} {a : α}
    (h : o = some a) (hs : o.isSome) : o.get hs = a := by
  cases h
  rfl

/-- The concrete input refuting the warning clause of C3: one source whose
template is identically zero (a degenerate model), finite data and noise, so
the layer's normal matrix is the zero matrix — singular. -/
def cexC3 : GFInput 1 1 :=
  ⟨1, fun _ _ => some 1, some ⟨1, fun _ _ => some 1⟩, fun _ _ _ => 0⟩

theorem cexC3_normal :
    layerNormal? (cexC3.data 0) (noiseEff cexC3 0) (cexC3.tmpl 0) =
      some (fun _ _ => (0 : ℚ)) := by
  have hmp : maskPresent (cexC3.data 0) (noiseEff cexC3 0) = false := by
    simp [maskPresent, cexC3, noiseEff]
  have hATA : ATAp (noiseEff cexC3 0) (cexC3.tmpl 0) 0 0 = some 0 := by
    simp [ATAp, designF, cexC3, noiseEff, List.ofFn_succ, fdiv]
  have hall : ∀ s t, (ATAp (noiseEff cexC3 0) (cexC3.tmpl 0) s t).isSome := by
    intro s t
    rw [Fin.eq_zero s, Fin.eq_zero t, hATA]
    rfl
  rw [layerNormal?, if_neg (by simp [hmp]), allFiniteM, dif_pos hall]
  refine congrArg some ?_
  funext s t
  rw [Fin.eq_zero s, Fin.eq_zero t]
  exact get_eq_of_eq_some hATA _

/-- C3, counterexample.  The claim asserts that a singular layer leads to
zero scales, *an emitted warning*, and continuation.  On `cexC3` the
normal-equations matrix of layer 0 is singular (determinant 0), the run
completes with zero scales for that layer — but the list of warnings printed
by the run is empty: the `except:` branch of source lines 246-249 emits
nothing.  The warning clause of the claim is false. -/
theorem singular_layer_no_warning_counterexample :
    layerNormalDet? (cexC3.data 0) (noiseEff cexC3 0) (cexC3.tmpl 0) = some 0 ∧
    isOkB (gen_fullmodel cexC3 true) = true ∧
    scalesAt (gen_fullmodel cexC3 true) 0 0 = some 0 ∧
    warningsOf (gen_fullmodel cexC3 true) = [] := by
  have hdet : Matrix.det (fun _ _ => (0 : ℚ) : Matrix (Fin 1) (Fin 1) ℚ) = 0 := by
    rw [Matrix.det_fin_one]
  refine ⟨?_, ?_, ?_, ?_⟩
  · rw [layerNormalDet?, cexC3_normal, Option.map_some', hdet]
  · rw [gen_fullmodel_ok cexC3 (Nat.le_refl 1)]
    rfl
  · rw [gen_fullmodel_ok cexC3 (Nat.le_refl 1), scalesAt]
    show (if (0 : ℕ) < cexC3.dataNl
        then solveLayerMTX (cexC3.data 0) (noiseEff cexC3 0) (cexC3.tmpl 0)
        else fun _ => some 0) 0 = some 0
    rw [if_pos (by norm_num [cexC3])]
    exact solveLayerMTX_singular_zero _ _ _ _ cexC3_normal hdet 0
  · rw [gen_fullmodel_ok cexC3 (Nat.le_refl 1)]
    rfl

/-- C3, amended.  A layer whose (finite) normal-equations matrix is
non-invertible is recovered locally — its source scales become exactly zero
and processing continues, the whole run completing normally — but no warning
is emitted (the `except:` fallback of source lines 246-249 is silent, and it
zeroes the inverse rather than falling back to a pseudo-inverse). -/
theorem singular_layer_zero_scales {n P : ℕ} (I : GFInput n P) (ll : ℕ)
    (hshape : I.dataNl ≤ noiseNlEff I) (hll : ll < I.dataNl)
    (M : Matrix (Fin n) (Fin n) ℚ)
    (hM : layerNormal? (I.data ll) (noiseEff I ll) (I.tmpl ll) = some M)
    (hdet : M.det = 0) :
    isOkB (gen_fullmodel I true) = true ∧
    (∀ s, scalesAt (gen_fullmodel I true) ll s = some 0) ∧
    warningsOf (gen_fullmodel I true) = [] := by
  rw [gen_fullmodel_ok I hshape]
  refine ⟨rfl, ?_, rfl⟩
  intro s
  rw [scalesAt]
  show (if ll < I.dataNl
      then solveLayerMTX (I.data ll) (noiseEff I ll) (I.tmpl ll)
      else fun _ => some 0) s = some 0
  rw [if_pos hll]
  exact solveLayerMTX_singular_zero _ _ _ M hM hdet s

/-- Witness for `singular_layer_zero_scales` at `cexC3`. -/
theorem singular_layer_zero_scales_witness :
    isOkB (gen_fullmodel cexC3 true) = true ∧
    scalesAt (gen_fullmodel cexC3 true) 0 0 = some 0 ∧
    warningsOf (gen_fullmodel cexC3 true) = [] := by
  have h := singular_layer_zero_scales cexC3 0 (Nat.le_refl 1)
    (by norm_num [cexC3]) (fun _ _ => 0) cexC3_normal
    (by rw [Matrix.det_fin_one])
  exact ⟨h.1, h.2.1 0, h.2.2⟩

end TDOSE

namespace TDOSE

/-! ## Claim C8 -/

/-- C8.  With `fit_source_scales=False` the intended behaviour (docstring
and spec: one combined scale per layer, replicated for every source in the
weight-matrix column) is never reached: source line 339,
`output_scales = np.asarray(scale.tolist * Nsource)`, multiplies the
*uncalled* bound method `scale.tolist` by an integer, raising `TypeError`
on the very first processed layer.  The run aborts; nothing is stored. -/
theorem fit_source_scales_false_typeerror {n P : ℕ} (I : GFInput n P)
    (hd : 0 < I.dataNl) (hn : 0 < noiseNlEff I) :
    gen_fullmodel I false = .error (.typeErrorTolist 0) := by
  obtain ⟨k, hk⟩ : ∃ k, I.dataNl = k + 1 := ⟨I.dataNl - 1, by omega⟩
  rw [gen_fullmodel, hk, List.range_succ_eq_map]
  simp [runLayers, layerStep, hn]

/-- Concrete failing input for C8: any one-layer cube. -/
def witC8 : GFInput 1 1 :=
  ⟨1, fun _ _ => some 1, some ⟨1, fun _ _ => some 1⟩, fun _ _ _ => 1⟩

/-- Witness for `fit_source_scales_false_typeerror` at `witC8`. -/
theorem fit_source_scales_false_typeerror_witness :
    gen_fullmodel witC8 false = .error (.typeErrorTolist 0) :=
  fit_source_scales_false_typeerror witC8 (by norm_num [witC8])
    (by norm_num [noiseNlEff, witC8])

end TDOSE

namespace TDOSE

/-! ## Claim C9 -/

/-- The concrete input refuting C9: a 1-layer data cube with a 2-layer noise
cube — the dimensions disagree, yet the run completes normally (no check
ever compares them; the loop simply uses the first data-shaped part of the
noise cube). -/
def cexC9 : GFInput 1 1 :=
  ⟨1, fun _ _ => some 1, some ⟨2, fun _ _ => some 1⟩, fun _ _ _ => 1⟩

/-- C9, counterexample.  The claim asserts that a run with disagreeing data
and noise cube dimensions fails fatally before any per-layer work.  On
`cexC9` the dimensions disagree (1 data layer vs 2 noise layers) and
`gen_fullmodel` nevertheless returns normally. -/
theorem shape_mismatch_counterexample :
    cexC9.dataNl ≠ noiseNlEff cexC9 ∧
    isOkB (gen_fullmodel cexC9 true) = true := by
  constructor
  · norm_num [cexC9, noiseNlEff]
  · rw [gen_fullmodel_ok cexC9 (by norm_num [cexC9, noiseNlEff])]
    rfl

/-- C9, amended.  `gen_fullmodel` performs no data/noise dimension check at
all: with at least as many noise layers as data layers the run completes
normally (whatever the mismatch), and with fewer noise layers it raises
`IndexError` only when the layer loop first reaches a missing noise layer —
after the earlier layers were already processed.  In the exceptional case
nothing is returned, so no partially populated result ever escapes. -/
theorem no_preloop_shape_check {n P : ℕ} (I : GFInput n P) :
    (I.dataNl ≤ noiseNlEff I → isOkB (gen_fullmodel I true) = true) ∧
    (noiseNlEff I < I.dataNl →
      gen_fullmodel I true = .error (.noiseIndex (noiseNlEff I))) := by
  constructor
  · intro h
    rw [gen_fullmodel_ok I h]
    rfl
  · intro h
    exact gen_fullmodel_noise_short I h

/-- Concrete input with a too-short noise cube (2 data layers, 1 noise
layer): the raise happens at layer 1, after layer 0 was processed. -/
def witC9 : GFInput 1 1 :=
  ⟨2, fun _ _ => some 1, some ⟨1, fun _ _ => some 1⟩, fun _ _ _ => 1⟩

/-- Witness for `no_preloop_shape_check` at `witC9`. -/
theorem no_preloop_shape_check_witness :
    gen_fullmodel witC9 true = .error (.noiseIndex 1) :=
  (no_preloop_shape_check witC9).2 (by norm_num [witC9, noiseNlEff])

end TDOSE

namespace TDOSE

/-! ## Claim C4 -/

/-- C4.  In deblended mode (some weight differs from 1), the extracted flux
at each layer is the sum over the (non-empty) list of constituent sources of
the weight-matrix entries `scale s ℓ`; with a one-to-one source association
(a singleton source list) the flux equals the single source's weight-matrix
row exactly. -/
theorem deblended_flux_sum {n L P : ℕ} (E : ExtractIn n L P)
    (hne : E.srcIDs ≠ []) (hao : allScalesOne E = false) :
    isOkB (extract_spectrum E) = true ∧
    (∀ ℓ, (spectrumOf (extract_spectrum E)).flux ℓ =
      (E.srcIDs.map fun s => E.scale s ℓ).sum) ∧
    (∀ s ℓ, E.srcIDs = [s] →
      (spectrumOf (extract_spectrum E)).flux ℓ = E.scale s ℓ) := by
  have hsing : ∀ s ℓ, E.srcIDs = [s] → fluxDeb E ℓ = E.scale s ℓ := by
    intro s ℓ hs
    rw [fluxDeb, hs]
    simp
  cases hν : E.noise? with
  | some ν =>
    rw [extract_spectrum_deb E ν hne hao hν]
    exact ⟨rfl, fun ℓ => rfl, hsing⟩
  | none =>
    rw [extract_spectrum_deb_nonoise E hne hao hν]
    exact ⟨rfl, fun ℓ => rfl, hsing⟩

/-- Concrete deblended input for the witness of `deblended_flux_sum`. -/
def witC4 : ExtractIn 1 1 1 :=
  ⟨fun _ _ => 2, [0], none, fun _ _ _ => some 0, none⟩

/-- Witness for `deblended_flux_sum` at `witC4`. -/
theorem deblended_flux_sum_witness :
    isOkB (extract_spectrum witC4) = true ∧
    (spectrumOf (extract_spectrum witC4)).flux 0 = witC4.scale 0 0 := by
  have h := deblended_flux_sum witC4 (by simp [witC4])
    (by rw [allScalesOne, decide_eq_false_iff_not]
        intro hc
        have := hc 0 0
        norm_num [witC4] at this)
  exact ⟨h.1, h.2.2 0 0 rfl⟩

end TDOSE

namespace TDOSE

/-! ## Claim C7 -/

/-- C7.  For every extracted spectrum (at the squared level): S/N equals
flux divided by noise; S/N is NaN (non-finite) wherever the noise is zero;
and when no noise cube was provided, every fluxerror and S/N entry is NaN. -/
theorem sn_and_fluxerror_nan {n L P : ℕ} (E : ExtractIn n L P)
    (hne : E.srcIDs ≠ [])
    (hdata : allScalesOne E = true → ∃ dc, E.data? = some dc) :
    isOkB (extract_spectrum E) = true ∧
    (∀ ℓ, (spectrumOf (extract_spectrum E)).snSq ℓ =
      fdiv (some (((spectrumOf (extract_spectrum E)).flux ℓ) ^ 2))
        ((spectrumOf (extract_spectrum E)).noiseSq ℓ)) ∧
    (∀ ℓ, (spectrumOf (extract_spectrum E)).noiseSq ℓ = some 0 →
      (spectrumOf (extract_spectrum E)).snSq ℓ = none) ∧
    (E.noise? = none → ∀ ℓ,
      (spectrumOf (extract_spectrum E)).noiseSq ℓ = none ∧
      (spectrumOf (extract_spectrum E)).snSq ℓ = none) := by
  by_cases hao : allScalesOne E = true
  · obtain ⟨dc, hdc⟩ := hdata hao
    cases hν : E.noise? with
    | some ν =>
      rw [extract_spectrum_ap E dc ν hne hao hdc hν]
      refine ⟨rfl, fun ℓ => rfl, ?_, ?_⟩
      · intro ℓ h
        show fdiv (some ((fluxAp E dc ℓ) ^ 2)) (noiseSqAp E dc ν ℓ) = none
        have hns : noiseSqAp E dc ν ℓ = some 0 := h
        rw [hns]
        simp [fdiv]
      · intro h
        simp [hν] at h
    | none =>
      rw [extract_spectrum_ap_nonoise E dc hne hao hdc hν]
      refine ⟨rfl, ?_, fun ℓ _ => rfl, fun _ ℓ => ⟨rfl, rfl⟩⟩
      intro ℓ
      show (none : FVal) = fdiv (some ((fluxAp E dc ℓ) ^ 2)) none
      rw [fdiv_none_right]
  · have hao' : allScalesOne E = false := by
      cases hb : allScalesOne E
      · rfl
      · exact absurd hb hao
    cases hν : E.noise? with
    | some ν =>
      rw [extract_spectrum_deb E ν hne hao' hν]
      refine ⟨rfl, fun ℓ => rfl, ?_, ?_⟩
      · intro ℓ h
        show fdiv (some ((fluxDeb E ℓ) ^ 2)) (some (debNoiseSq E ν ℓ)) = none
        have h' : (some (debNoiseSq E ν ℓ) : FVal) = some 0 := h
        have hz : debNoiseSq E ν ℓ = 0 := by injection h'
        rw [hz]
        simp [fdiv]
      · intro h
        simp [hν] at h
    | none =>
      rw [extract_spectrum_deb_nonoise E hne hao' hν]
      refine ⟨rfl, ?_, fun ℓ _ => rfl, fun _ ℓ => ⟨rfl, rfl⟩⟩
      intro ℓ
      show (none : FVal) = fdiv (some ((fluxDeb E ℓ) ^ 2)) none
      rw [fdiv_none_right]

/-- Concrete aperture input (all weights 1, with data and noise cubes) for
the witness of `sn_and_fluxerror_nan`. -/
def witC7 : ExtractIn 1 1 1 :=
  ⟨fun _ _ => 1, [0], some (fun _ _ => some 1), fun _ _ _ => some 1,
    some (fun _ _ => some 1)⟩

/-- Witness for `sn_and_fluxerror_nan` at `witC7`. -/
theorem sn_and_fluxerror_nan_witness :
    isOkB (extract_spectrum witC7) = true ∧
    (spectrumOf (extract_spectrum witC7)).snSq 0 =
      fdiv (some (((spectrumOf (extract_spectrum witC7)).flux 0) ^ 2))
        ((spectrumOf (extract_spectrum witC7)).noiseSq 0) := by
  have h := sn_and_fluxerror_nan witC7 (by simp [witC7]) (fun _ => ⟨_, rfl⟩)
  exact ⟨h.1, h.2.1 0⟩

end TDOSE

namespace TDOSE

/-! ## Claim C5 -/

/-- The set of pixels that contribute to the deblended noise sum of a layer:
finite flux fraction and finite nonzero noise. -/
def debValidSet {n L P : ℕ} (E : ExtractIn n L P) (ν : Fin L → Fin P → FVal)
    (ℓ : Fin L) : Finset (Fin P) :=
  Finset.univ.filter
    (fun p => (fluxfracDeb E ℓ p).isSome ∧ (ν ℓ p).isSome ∧ ν ℓ p ≠ some 0)

theorem debValidSet_empty_iff {n L P : ℕ} (E : ExtractIn n L P)
    (ν : Fin L → Fin P → FVal) (ℓ : Fin L) :
    debValidSet E ν ℓ = ∅ ↔ ∀ p, debMask E ν ℓ p := by
  rw [debValidSet, Finset.filter_eq_empty_iff]
  constructor
  · intro h p
    cases hb : debMask E ν ℓ p
    · exact absurd ((debMask_false_iff E ν ℓ p).mp hb) (h (Finset.mem_univ p))
    · rfl
  · intro h p _ hc
    have hb := (debMask_false_iff E ν ℓ p).mpr hc
    rw [h p] at hb
    cases hb

/-- `debS` as a sum over the valid pixel set. -/
theorem debS_valid {n L P : ℕ} (E : ExtractIn n L P)
    (ν : Fin L → Fin P → FVal) (ℓ : Fin L) :
    debS E ν ℓ = ∑ p ∈ debValidSet E ν ℓ,
      ((fluxfracDeb E ℓ p).getD 0) ^ 2 / ((ν ℓ p).getD 1) ^ 2 :=
  debS_filter E ν ℓ

theorem debNoiseSq_of_not_allmask {n L P : ℕ} (E : ExtractIn n L P)
    (ν : Fin L → Fin P → FVal) (ℓ : Fin L)
    (hnot : ¬ ∀ p, debMask E ν ℓ p) :
    debNoiseSq E ν ℓ = if debS E ν ℓ = 0 then 0 else 1 / debS E ν ℓ := by
  rw [debNoiseSq, debInvNoiseSq, if_neg hnot]

theorem debNoiseSq_of_allmask {n L P : ℕ} (E : ExtractIn n L P)
    (ν : Fin L → Fin P → FVal) (ℓ : Fin L)
    (hall : ∀ p, debMask E ν ℓ p) :
    debNoiseSq E ν ℓ = 0 := by
  rw [debNoiseSq, debInvNoiseSq, if_pos hall]

/-- The noise layer of the counterexample input of C5 (all noise 1). -/
def cexNu5 : Fin 1 → Fin 1 → FVal := fun _ _ => some 1

/-- The concrete input refuting C5: deblended mode (weight 2), one source
whose model is identically zero, noise 1 — every pixel is valid, but the
flux-fraction image is identically zero, so the claimed noise
`1/sqrt(Σ f²/σ²) = 1/sqrt(0)` is non-finite while the code's masked
division fills the result with 0. -/
def cexE5 : ExtractIn 1 1 1 :=
  ⟨fun _ _ => 2, [0], some cexNu5, fun _ _ _ => some 0, none⟩

theorem cexE5_fluxfrac : fluxfracDeb cexE5 0 0 = some 0 := by
  norm_num [fluxfracDeb, cexE5, fdiv, fadd]

/-- C5, counterexample.  The claim states that for every layer the extracted
noise equals `1/sqrt(Σᵢⱼ fᵢⱼ²/noiseᵢⱼ²)` with (only) non-finite pixels
excluded.  On `cexE5` the extraction completes and stores noise 0 for layer
0 (`(1.0/inv_noise_masked).filled(0.0)` with the zero-divisor domain mask),
while the claimed formula evaluates to `1/0`, which is non-finite — the
stored noise and the claimed formula disagree. -/
theorem deblended_noise_formula_counterexample :
    allScalesOne cexE5 = false ∧
    isOkB (extract_spectrum cexE5) = true ∧
    (spectrumOf (extract_spectrum cexE5)).noiseSq 0 = some 0 ∧
    specDebNoiseSq cexE5 cexNu5 0 = none := by
  have hao : allScalesOne cexE5 = false := by
    rw [allScalesOne, decide_eq_false_iff_not]
    intro hc
    have := hc 0 0
    norm_num [cexE5] at this
  have hmask : debMask cexE5 cexNu5 0 0 = false := by
    rw [debMask, cexE5_fluxfrac]
    norm_num [cexNu5]
  have hnot : ¬ ∀ p : Fin 1, debMask cexE5 cexNu5 0 p := by
    intro h
    have h0 := h 0
    rw [hmask] at h0
    cases h0
  have hS : debS cexE5 cexNu5 0 = 0 := by
    rw [debS, Fin.sum_univ_one, hmask, cexE5_fluxfrac]
    norm_num [cexNu5]
  refine ⟨hao, ?_, ?_, ?_⟩
  · rw [extract_spectrum_deb cexE5 cexNu5 (by simp [cexE5]) hao rfl]
    rfl
  · rw [extract_spectrum_deb cexE5 cexNu5 (by simp [cexE5]) hao rfl]
    show some (debNoiseSq cexE5 cexNu5 0) = some 0
    rw [debNoiseSq_of_not_allmask cexE5 cexNu5 0 hnot, hS, if_pos rfl]
  · rw [specDebNoiseSq, List.ofFn_succ, List.ofFn_zero, cexE5_fluxfrac]
    norm_num [cexNu5, fdiv, fmul, fsum, fadd]

/-- C5, amended.  In deblended mode with a noise cube: the flux-fraction
image is the sum over constituent sources of (source model / layer scale)
divided by the source count; the noise (squared level) equals
`1/(Σ f²/σ²)` where the sum runs over the pixels that are finite in both the
flux-fraction cube and the noise cube *and have nonzero noise* (the
zero-divisor domain mask of masked division); and for a layer where no
valid pixel remains or the sum vanishes, the stored noise is 0 (the
`.filled(0.0)` of source line 214), not NaN. -/
theorem deblended_noise_formula {n L P : ℕ} (E : ExtractIn n L P)
    (ν : Fin L → Fin P → FVal) (hne : E.srcIDs ≠ [])
    (hao : allScalesOne E = false) (hν : E.noise? = some ν) :
    isOkB (extract_spectrum E) = true ∧
    (∀ ℓ p, fluxfracDeb E ℓ p =
      fdiv (fsum (E.srcIDs.map fun s =>
          fdiv (E.srcmodel s ℓ p) (some (E.scale s ℓ))))
        (some (E.srcIDs.length : ℚ))) ∧
    (∀ ℓ, (debValidSet E ν ℓ).Nonempty →
      (∑ p ∈ debValidSet E ν ℓ,
        ((fluxfracDeb E ℓ p).getD 0) ^ 2 / ((ν ℓ p).getD 1) ^ 2) ≠ 0 →
      (spectrumOf (extract_spectrum E)).noiseSq ℓ =
        some (1 / ∑ p ∈ debValidSet E ν ℓ,
          ((fluxfracDeb E ℓ p).getD 0) ^ 2 / ((ν ℓ p).getD 1) ^ 2)) ∧
    (∀ ℓ, (debValidSet E ν ℓ = ∅ ∨
        (∑ p ∈ debValidSet E ν ℓ,
          ((fluxfracDeb E ℓ p).getD 0) ^ 2 / ((ν ℓ p).getD 1) ^ 2) = 0) →
      (spectrumOf (extract_spectrum E)).noiseSq ℓ = some 0) := by
  rw [extract_spectrum_deb E ν hne hao hν]
  refine ⟨rfl, fun ℓ p => fluxfracDeb_eq_sum E ℓ p, ?_, ?_⟩
  · intro ℓ hVne hSne
    show some (debNoiseSq E ν ℓ) = _
    have hnot : ¬ ∀ p, debMask E ν ℓ p := by
      intro hall
      rw [← debValidSet_empty_iff E ν ℓ] at hall
      rw [hall] at hVne
      exact Finset.not_nonempty_empty hVne
    have hS : debS E ν ℓ ≠ 0 := by
      rw [debS_valid]
      exact hSne
    rw [debNoiseSq_of_not_allmask E ν ℓ hnot, if_neg hS, debS_valid]
  · intro ℓ hzero
    show some (debNoiseSq E ν ℓ) = some 0
    rcases hzero with hV | hS
    · rw [debNoiseSq_of_allmask E ν ℓ ((debValidSet_empty_iff E ν ℓ).mp hV)]
    · by_cases hall : ∀ p, debMask E ν ℓ p
      · rw [debNoiseSq_of_allmask E ν ℓ hall]
      · rw [debNoiseSq_of_not_allmask E ν ℓ hall, if_pos (by rw [debS_valid]; exact hS)]

/-- The noise layer of the witness input of C5. -/
def witNu5 : Fin 1 → Fin 1 → FVal := fun _ _ => some 1

/-- A deblended input on which the inverse-variance formula is active:
weight 2, source model 1, noise 1 (flux fraction 1/2, sum 1/4). -/
def witE5 : ExtractIn 1 1 1 :=
  ⟨fun _ _ => 2, [0], some witNu5, fun _ _ _ => some 1, none⟩

/-- Witness for `deblended_noise_formula` at `witE5`. -/
theorem deblended_noise_formula_witness :
    isOkB (extract_spectrum witE5) = true ∧
    (spectrumOf (extract_spectrum witE5)).noiseSq 0 =
      some (1 / ∑ p ∈ debValidSet witE5 witNu5 0,
        ((fluxfracDeb witE5 0 p).getD 0) ^ 2 / ((witNu5 0 p).getD 1) ^ 2) := by
  have hff : fluxfracDeb witE5 0 0 = some (1 / 2 : ℚ) := by
    norm_num [fluxfracDeb, witE5, fdiv, fadd]
  have hao : allScalesOne witE5 = false := by
    rw [allScalesOne, decide_eq_false_iff_not]
    intro hc
    have := hc 0 0
    norm_num [witE5] at this
  have hmem : (0 : Fin 1) ∈ debValidSet witE5 witNu5 0 := by
    rw [debValidSet, Finset.mem_filter]
    refine ⟨Finset.mem_univ _, ?_, ?_, ?_⟩
    · rw [hff]; rfl
    · rfl
    · norm_num [witNu5]
  have hfil : debValidSet witE5 witNu5 0 = Finset.univ := by
    refine Finset.eq_univ_of_forall ?_
    intro p
    rw [Fin.eq_zero p]
    exact hmem
  have hsum : (∑ p ∈ debValidSet witE5 witNu5 0,
      ((fluxfracDeb witE5 0 p).getD 0) ^ 2 / ((witNu5 0 p).getD 1) ^ 2) = 1 / 4 := by
    rw [hfil, Fin.sum_univ_one, hff]
    norm_num [witNu5]
  have h := deblended_noise_formula witE5 witNu5 (by simp [witE5]) hao rfl
  exact ⟨h.1, h.2.2.1 0 ⟨0, hmem⟩ (by rw [hsum]; norm_num)⟩

end TDOSE

namespace TDOSE

/-! ## Claim C6 -/

/-- Data cube of the C6 counterexample: pixel 0 holds 5, pixel 1 holds 3. -/
def cexDc6 : Fin 1 → Fin 2 → FVal := fun _ p => if p = 0 then some 5 else some 3

/-- Noise cube of the C6 counterexample: 1 at pixel 0, NaN at pixel 1. -/
def cexNu6 : Fin 1 → Fin 2 → FVal := fun _ p => if p = 0 then some 1 else none

/-- The concrete input refuting the C6 formulas: all weights 1 (aperture
mode), two sources whose templates cancel at pixel 0 (+1 and −1) and agree
at pixel 1 (+1 and +1), and a noise cube that is NaN at pixel 1. -/
def cexE6 : ExtractIn 2 1 2 :=
  ⟨fun _ _ => 1, [0, 1], some cexNu6,
   fun s _ p => if s = 0 then some 1 else if p = 0 then some (-1) else some 1,
   some cexDc6⟩

theorem cexE6_objCube : ∀ p, objCubeAp cexE6 0 p = some 2 := by
  intro p
  fin_cases p <;>
    norm_num [objCubeAp, cexE6, fabs, fsum, fadd, abs_neg, abs_one]

/-- C6, counterexample.  The claim describes the object's binary mask as
"pixels where the summed constituent templates are nonzero, excluding
non-finite data pixels", and the noise as the sqrt of the summed squared
noise values over that same mask.  The source instead masks on the summed
*absolute values* of the templates (`np.abs` on source line 156) and
additionally excludes non-finite noise pixels (line 169).  On `cexE6` the
extracted flux is 8 and the extracted squared noise is 1, while the claimed
formulas give flux 3 and a non-finite (NaN) noise. -/
theorem aperture_extraction_counterexample :
    allScalesOne cexE6 = true ∧
    (spectrumOf (extract_spectrum cexE6)).flux 0 = 8 ∧
    specApFlux cexE6 cexDc6 0 = 3 ∧
    (spectrumOf (extract_spectrum cexE6)).noiseSq 0 = some 1 ∧
    specApNoiseSq cexE6 cexDc6 cexNu6 0 = none := by
  have hao : allScalesOne cexE6 = true := by
    rw [allScalesOne, decide_eq_true_eq]
    intro s ℓ
    rfl
  have hex := extract_spectrum_ap cexE6 cexDc6 cexNu6 (by simp [cexE6]) hao rfl rfl
  have hmask : ∀ p, apMask cexE6 cexDc6 0 p = false := by
    intro p
    rw [apMask, cexE6_objCube p]
    fin_cases p <;> norm_num [cexDc6]
  have hnmask0 : apNoiseMask cexE6 cexDc6 cexNu6 0 0 = false := by
    rw [apNoiseMask, hmask 0]
    norm_num [cexNu6]
  have hnmask1 : apNoiseMask cexE6 cexDc6 cexNu6 0 1 = true := by
    rw [apNoiseMask, hmask 1]
    norm_num [cexNu6]
  refine ⟨hao, ?_, ?_, ?_, ?_⟩
  · rw [hex]
    show fluxAp cexE6 cexDc6 0 = 8
    rw [fluxAp, Fin.sum_univ_two, hmask 0, hmask 1]
    norm_num [cexDc6]
  · rw [specApFlux, Fin.sum_univ_two]
    have h0 : specApInSet cexE6 cexDc6 0 0 = false := by
      rw [specApInSet]
      norm_num [cexE6, cexDc6, fsum, fadd]
    have h1 : specApInSet cexE6 cexDc6 0 1 = true := by
      rw [specApInSet]
      norm_num [cexE6, cexDc6, fsum, fadd]
    rw [h0, h1]
    norm_num [cexDc6]
  · rw [hex]
    show noiseSqAp cexE6 cexDc6 cexNu6 0 = some 1
    rw [noiseSqAp, if_neg (by
      intro h
      have := h 0
      rw [hnmask0] at this
      cases this)]
    rw [Fin.sum_univ_two, hnmask0, hnmask1]
    norm_num [cexNu6]
  · have h0 : specApInSet cexE6 cexDc6 0 0 = false := by
      rw [specApInSet]
      norm_num [cexE6, cexDc6, fsum, fadd]
    have h1 : specApInSet cexE6 cexDc6 0 1 = true := by
      rw [specApInSet]
      norm_num [cexE6, cexDc6, fsum, fadd]
    rw [specApNoiseSq, List.ofFn_succ, List.ofFn_succ, List.ofFn_zero]
    norm_num [Fin.succ_zero_eq_one, h0, h1, cexNu6, fmul, fsum, fadd]

/-- C6, amended.  Aperture mode is selected exactly when every weight-matrix
entry equals 1; in that mode the flux at each layer is the sum of data
pixels over the object's binary mask — the pixels where the summed
*absolute values* of the constituent templates are nonzero, excluding
non-finite data pixels — and the noise (squared level) is the sum of
squared noise values over that mask with non-finite noise pixels also
excluded; when every pixel of a layer is excluded, the noise is NaN.  When
some weight differs from 1, the deblended flux (sum of weights) is used
instead. -/
theorem aperture_extraction_formulas {n L P : ℕ} (E : ExtractIn n L P)
    (dc ν : Fin L → Fin P → FVal) (hne : E.srcIDs ≠ [])
    (hdc : E.data? = some dc) (hν : E.noise? = some ν) :
    (allScalesOne E = true ↔ ∀ s ℓ, E.scale s ℓ = 1) ∧
    (allScalesOne E = true →
      isOkB (extract_spectrum E) = true ∧
      (∀ ℓ, (spectrumOf (extract_spectrum E)).flux ℓ =
        ∑ p ∈ Finset.univ.filter
            (fun p => (dc ℓ p).isSome ∧ objCubeAp E ℓ p ≠ some 0),
          (dc ℓ p).getD 0) ∧
      (∀ ℓ, ¬ (∀ p, apNoiseMask E dc ν ℓ p) →
        (spectrumOf (extract_spectrum E)).noiseSq ℓ =
          some (∑ p ∈ Finset.univ.filter
              (fun p => ((dc ℓ p).isSome ∧ objCubeAp E ℓ p ≠ some 0) ∧
                (ν ℓ p).isSome),
            ((ν ℓ p).getD 0) ^ 2)) ∧
      (∀ ℓ, (∀ p, apNoiseMask E dc ν ℓ p) →
        (spectrumOf (extract_spectrum E)).noiseSq ℓ = none)) ∧
    (allScalesOne E = false →
      ∀ ℓ, (spectrumOf (extract_spectrum E)).flux ℓ =
        (E.srcIDs.map fun s => E.scale s ℓ).sum) := by
  refine ⟨by rw [allScalesOne, decide_eq_true_eq], ?_, ?_⟩
  · intro hao
    rw [extract_spectrum_ap E dc ν hne hao hdc hν]
    refine ⟨rfl, fun ℓ => fluxAp_filter E dc ℓ,
      fun ℓ h => noiseSqAp_filter E dc ν ℓ h, ?_⟩
    intro ℓ h
    show noiseSqAp E dc ν ℓ = none
    rw [noiseSqAp, if_pos h]
  · intro hao ℓ
    rw [extract_spectrum_deb E ν hne hao hν]
    rfl

/-- Data cube of the C6 witness. -/
def witDc6 : Fin 1 → Fin 1 → FVal := fun _ _ => some 5

/-- Noise cube of the C6 witness. -/
def witNu6 : Fin 1 → Fin 1 → FVal := fun _ _ => some 1

/-- An ordinary aperture input (weight 1, template 1) for the C6 witness. -/
def witE6 : ExtractIn 1 1 1 :=
  ⟨fun _ _ => 1, [0], some witNu6, fun _ _ _ => some 1, some witDc6⟩

/-- Witness for `aperture_extraction_formulas` at `witE6`. -/
theorem aperture_extraction_formulas_witness :
    isOkB (extract_spectrum witE6) = true ∧
    (spectrumOf (extract_spectrum witE6)).flux 0 =
      ∑ p ∈ Finset.univ.filter
          (fun p => (witDc6 0 p).isSome ∧ objCubeAp witE6 0 p ≠ some 0),
        (witDc6 0 p).getD 0 := by
  have h := (aperture_extraction_formulas witE6 witDc6 witNu6
    (by simp [witE6]) rfl rfl).2.1
    (by rw [allScalesOne, decide_eq_true_eq]; intro s ℓ; rfl)
  exact ⟨h.1, h.2.1 0⟩

end TDOSE

namespace TDOSE

/-! ## Claim C10 -/

/-- The maximum of a nonempty list of valid indices is a valid index. -/
theorem foldr_max_lt {K : List ℕ} {N : ℕ} (hne : K ≠ [])
    (h : ∀ m ∈ K, m < N) : K.foldr max 0 < N := by
  induction K with
  | nil => exact absurd rfl hne
  | cons a t ih =>
    rw [List.foldr_cons]
    by_cases ht : t = []
    · subst ht
      simpa using h a (List.mem_cons_self a [])
    · exact max_lt (h a (List.mem_cons_self a t))
        (ih ht (fun m hm => h m (List.mem_cons.mpr (Or.inr hm))))

/-- The data cube of the C10 counterexample. -/
def cexDataRO : Fin 1 → ℚ := fun _ => 3

/-- The source model cube of the C10 counterexample. -/
def cexModelRO : ℕ → Fin 1 → ℚ := fun _ _ => 1

/-- C10, counterexample.  The claim asserts
`remove_object(objects=K, remove=False) = remove_object(objects=complement
of K, remove=True)` for every valid index list `K`.  With `K` covering all
models (here `N = 1`, `K = [0]`), the `remove=False` call succeeds and
returns the data cube unchanged, while the call on the (empty) complement
raises `ValueError` in `np.max` (source line 129) — the two sides differ. -/
theorem remove_object_complement_counterexample :
    isOkB (remove_object cexDataRO cexModelRO 1 [0] false) = true ∧
    cubeOf (remove_object cexDataRO cexModelRO 1 [0] false) 0 = 3 ∧
    remove_object cexDataRO cexModelRO 1
      ((List.range 1).filter (fun m => m ∉ [0])) true = .error .emptyObjects := by
  have hfil : (List.range 1).filter (fun m => m ∉ ([0] : List ℕ)) = [] := by
    decide
  have hrun : remove_object cexDataRO cexModelRO 1 [0] false =
      .ok (fun p => cexDataRO p -
        ((((List.range 1).filter (fun m => m ∉ ([0] : List ℕ))).map
          (fun m => cexModelRO m p)).sum)) := by
    rw [remove_object, if_neg (by simp), if_neg (by norm_num)]
    rfl
  refine ⟨?_, ?_, ?_⟩
  · rw [hrun]
    rfl
  · rw [hrun, cubeOf]
    show cexDataRO 0 -
      ((((List.range 1).filter (fun m => m ∉ ([0] : List ℕ))).map
        (fun m => cexModelRO m 0)).sum) = 3
    rw [hfil]
    norm_num [cexDataRO]
  · rw [hfil]
    rfl

/-- C10, amended.  For every non-empty valid index list `K` (all indices
below the number of models): `remove=True` returns the data cube minus the
pixelwise sum of the models indexed by `K`; `remove=False` returns the data
cube minus the sum of the models whose indices are not in `K`; and the
equivalence `remove_object(K, False) = remove_object(complement K, True)`
holds *provided the complement is non-empty* — when `K` covers all models
the right-hand call raises on its empty object list instead. -/
theorem remove_object_formulas {Q : ℕ} (dataarr : Fin Q → ℚ)
    (sourcemodel : ℕ → Fin Q → ℚ) (N : ℕ) (K : List ℕ)
    (hne : K ≠ []) (hvalid : ∀ m ∈ K, m < N) :
    (remove_object dataarr sourcemodel N K true =
      .ok (fun p => dataarr p - (K.map (fun m => sourcemodel m p)).sum)) ∧
    (remove_object dataarr sourcemodel N K false =
      .ok (fun p => dataarr p -
        (((List.range N).filter (fun m => m ∉ K)).map
          (fun m => sourcemodel m p)).sum)) ∧
    ((List.range N).filter (fun m => m ∉ K) ≠ [] →
      remove_object dataarr sourcemodel N K false =
        remove_object dataarr sourcemodel N
          ((List.range N).filter (fun m => m ∉ K)) true) := by
  have hmax : ¬ N ≤ K.foldr max 0 := by
    rw [not_le]
    exact foldr_max_lt hne hvalid
  refine ⟨?_, ?_, ?_⟩
  · rw [remove_object, if_neg hne, if_neg hmax]
    rfl
  · rw [remove_object, if_neg hne, if_neg hmax]
    rfl
  · intro hc
    have hmax2 : ¬ N ≤ ((List.range N).filter (fun m => m ∉ K)).foldr max 0 := by
      rw [not_le]
      refine foldr_max_lt hc ?_
      intro m hm
      exact List.mem_range.mp (List.mem_of_mem_filter hm)
    rw [remove_object, if_neg hne, if_neg hmax,
      remove_object, if_neg hc, if_neg hmax2]
    rfl

/-- Data cube for the C10 witness. -/
def witDataRO : Fin 1 → ℚ := fun _ => 3

/-- Source model cube for the C10 witness. -/
def witModelRO : ℕ → Fin 1 → ℚ := fun _ _ => 1

/-- Witness for `remove_object_formulas` with `N = 2`, `K = [0]` (so the
complement `[1]` is non-empty and the keep/remove equivalence applies). -/
theorem remove_object_formulas_witness :
    remove_object witDataRO witModelRO 2 [0] false =
      remove_object witDataRO witModelRO 2
        ((List.range 2).filter (fun m => m ∉ ([0] : List ℕ))) true :=
  (remove_object_formulas witDataRO witModelRO 2 [0] (by simp)
    (by intro m hm; simp at hm; omega)).2.2 (by decide)

end TDOSE
